import Mathlib

/-!
Verification of the My-Local-Cinema media pipeline (`cinema.py`).

The Python source is shallowly embedded: pure string manipulation is
translated to functions on `List Char` / `String`, the TMDB provider is
modelled as an explicit function argument, filesystem facts (file sizes,
`realpath`, `isfile`) are passed in as data, and floating point scores are
modelled with `ℚ` (the score arithmetic only adds fixed decimal literals).
Python truthiness is modelled field by field: `""` and `[]` and `None` are
falsy, numbers are falsy exactly when zero.
-/

namespace Cinema

/-! ## Python-style string helpers -/

/-- Characters matched by Python's `\s` (ASCII). -/
def isSpaceChar (c : Char) : Bool :=
  c = ' ' || c = '\t' || c = '\n' || c = '\x0d' || c = '\x0b' || c = '\x0c'

/-- Characters matched by Python's `\w` (ASCII approximation). -/
def isWordChar (c : Char) : Bool :=
  c.isAlpha || c.isDigit || c = '_'

/-- `re.sub(r"\s+", " ", s)`: collapse every whitespace run to one space.
The flag records whether the previous character was part of a run. -/
def collapseWsGo : List Char → Bool → List Char
  | [], _ => []
  | c :: cs, prevSpace =>
    if isSpaceChar c then
      if prevSpace then collapseWsGo cs true else ' ' :: collapseWsGo cs true
    else c :: collapseWsGo cs false

def collapseWs (cs : List Char) : List Char := collapseWsGo cs false

/-- Python `str.strip()`. -/
def pystrip (cs : List Char) : List Char :=
  ((cs.dropWhile isSpaceChar).reverse.dropWhile isSpaceChar).reverse

/-- Value of an ASCII digit. -/
def digitVal (c : Char) : Nat := c.toNat - '0'.toNat

/-! ## Movie-like identity parser (`parse_title_year_from_folder`) -/

/-- `YEAR_RE = (19\d{2}|20\d{2})` tested at the head of the character list;
returns the year value on a match.  Note the regex has no word boundaries:
it also fires inside a longer alphanumeric run. -/
def yearHead : List Char → Option Int
  | '1' :: '9' :: c :: d :: _ =>
    if c.isDigit && d.isDigit then some (1900 + 10 * (digitVal c : Int) + digitVal d) else none
  | '2' :: '0' :: c :: d :: _ =>
    if c.isDigit && d.isDigit then some (2000 + 10 * (digitVal c : Int) + digitVal d) else none
  | _ => none

/-- `re.search` for `YEAR_RE`: leftmost match; returns the text before the
match and the matched year. -/
def findYear : List Char → Option (List Char × Int)
  | [] => none
  | c :: cs =>
    match yearHead (c :: cs) with
    | some y => some ([], y)
    | none => (findYear cs).map (fun p => (c :: p.1, p.2))

/-- The normalization prefix of `parse_title_year_from_folder`:
`.` → space, `re.sub(r"[()\[\]{}_+]+", " ", s)`, whitespace collapse, strip. -/
def normalizeMovieLike (name : String) : List Char :=
  let step1 := name.data.map (fun c => if c = '.' then ' ' else c)
  let step2 := step1.map (fun c =>
    if c = '(' || c = ')' || c = '[' || c = ']' || c = '{' || c = '}' || c = '_' || c = '+'
    then ' ' else c)
  pystrip (collapseWs step2)

/-- `parse_title_year_from_folder(name)`. -/
def parseTitleYearFromFolder (name : String) : String × Option Int :=
  let s := normalizeMovieLike name
  match findYear s with
  | none => (String.mk s, none)
  | some (p, y) => (String.mk (collapseWs (pystrip p)), some y)

/-- Whether the year pattern matches at index `i` of `s` (spec-side view of
the scanner). -/
def yearPatternAt (s : List Char) (i : Nat) : Option Int := yearHead (s.drop i)

/-- Spec-side: a standalone 4-digit year token at index `i` — the pattern
match bounded by word boundaries on both sides. -/
def yearTokenAt (s : List Char) (i : Nat) : Option Int :=
  match yearPatternAt s i with
  | none => none
  | some y =>
    let beforeOk := i = 0 || !isWordChar ((s.take i).getLastD ' ')
    let afterOk := match s.drop (i + 4) with
      | [] => true
      | c :: _ => !isWordChar c
    if beforeOk && afterOk then some y else none

/-- All year tokens occurring in `s`, in positional order. -/
def yearTokens (s : List Char) : List Int :=
  (List.range s.length).filterMap (yearTokenAt s)

/-! ## Show discovery (`clean_name`, `parse_show_from_string`,
`_add_or_update_episode`, episode keys) -/

/-- `clean_name`: `_` and `.` to spaces, bracket classes to spaces,
whitespace collapse, strip. -/
def cleanName (text : String) : List Char :=
  let step1 := text.data.map (fun c => if c = '_' || c = '.' then ' ' else c)
  let step2 := step1.map (fun c =>
    if c = '(' || c = ')' || c = '[' || c = ']' || c = '{' || c = '}' then ' ' else c)
  pystrip (collapseWs step2)

/-- The separator class `[.\-_ ]` between season digits and `E`. -/
def isSepCl (c : Char) : Bool := c = '.' || c = '-' || c = '_' || c = ' '

/-- Word-boundary test at the start of a remaining suffix (`\b` after the
final episode digits): passes at end of string or before a non-word char. -/
def bOk : List Char → Bool
  | [] => true
  | c :: _ => !isWordChar c

/-- `(\d{1,2})` greedily at the head.  A one-digit take whose continuation
would start at another digit can never satisfy the rest of the pattern
(`\s*[.\-_ ]*[Ee]`), so taking two digits when available is faithful to the
regex engine's backtracking. -/
def seasonDigits : List Char → Option (Nat × List Char)
  | [] => none
  | [c1] => if c1.isDigit then some (digitVal c1, []) else none
  | c1 :: c2 :: rest =>
    if c1.isDigit then
      if c2.isDigit then some (10 * digitVal c1 + digitVal c2, rest)
      else some (digitVal c1, c2 :: rest)
    else none

/-- `(\d{1,2})\b` greedily at the head; the boundary after a one-digit take
fails whenever a second digit follows, so the greedy take is faithful. -/
def epDigits : List Char → Option (Nat × List Char)
  | [] => none
  | [c1] => if c1.isDigit then some (digitVal c1, []) else none
  | c1 :: c2 :: rest =>
    if c1.isDigit then
      if c2.isDigit then
        if bOk rest then some (10 * digitVal c1 + digitVal c2, rest) else none
      else if bOk (c2 :: rest) then some (digitVal c1, c2 :: rest) else none
    else none

/-- `SxxEyy_RE` anchored at the head of the list (the `\b` before `[Ss]` is
checked by the caller); returns season, episode and the suffix after the
match. -/
def matchFrom : List Char → Option (Nat × Nat × List Char)
  | [] => none
  | c :: cs =>
    if c = 'S' || c = 's' then
      match seasonDigits (cs.dropWhile isSpaceChar) with
      | none => none
      | some (se, t2) =>
        match (t2.dropWhile isSpaceChar).dropWhile isSepCl with
        | [] => none
        | e :: t4 =>
          if e = 'E' || e = 'e' then
            match epDigits (t4.dropWhile isSpaceChar) with
            | none => none
            | some (ep, rest) => some (se, ep, rest)
          else none
    else none

/-- Word-boundary before the `[Ss]`: ok at string start or after a non-word
character. -/
def boundaryOk : Option Char → Bool
  | none => true
  | some p => !isWordChar p

/-- `re.search` for `SxxEyy_RE`: leftmost match, carrying the previous
character for the leading `\b`.  Returns the text before the match together
with the match data. -/
def findShowMatch : Option Char → List Char → Option (List Char × Nat × Nat × List Char)
  | _, [] => none
  | prev, c :: cs =>
    match (if boundaryOk prev then matchFrom (c :: cs) else none) with
    | some (se, ep, rest) => some ([], se, ep, rest)
    | none => (findShowMatch (some c) cs).map (fun r => (c :: r.1, r.2.1, r.2.2.1, r.2.2.2))

/-- Split a character list into whitespace-separated words
(`re.split(r"\s+", tail)` with empty tokens dropped). -/
def wordsGo : List Char → List Char → List (List Char)
  | [], acc => if acc.isEmpty then [] else [acc.reverse]
  | c :: cs, acc =>
    if isSpaceChar c then
      if acc.isEmpty then wordsGo cs [] else acc.reverse :: wordsGo cs []
    else wordsGo cs (c :: acc)

def wordsOf (cs : List Char) : List (List Char) := wordsGo cs []

/-- `QUALITY_SET` membership of the upper-cased token. -/
def qualityTok (w : List Char) : Bool :=
  let u := String.mk (w.map Char.toUpper)
  u = "2160P" || u = "1080P" || u = "720P" || u = "480P"

structure ShowParse where
  show_name : String
  season : Nat
  episode : Nat
  epTitle : String
  deriving Repr, DecidableEq

/-- Join words with single spaces. -/
def joinWords : List (List Char) → List Char
  | [] => []
  | [w] => w
  | w :: ws => w ++ ' ' :: joinWords ws

/-- `parse_show_from_string(text)`. -/
def parseShowFromString (text : String) : Option ShowParse :=
  let s := cleanName text
  match findShowMatch none s with
  | none => none
  | some (p, se, ep, rest) =>
    let tailToks := wordsOf (pystrip rest)
    let epToks := tailToks.takeWhile (fun t => !qualityTok t)
    some { show_name := String.mk (pystrip p),
           season := se, episode := ep,
           epTitle := String.mk (pystrip (joinWords epToks)) }

/-- `f"{sid}_S{season:02d}E{episode:02d}"` — episode key construction in
`discover_shows`. -/
def pad2 (n : Nat) : String := if n < 10 then "0" ++ toString n else toString n

def epKey (sid : String) (season episode : Nat) : String :=
  sid ++ "_S" ++ pad2 season ++ "E" ++ pad2 episode

/-- One episode record of a season list (`{"eid", "s", "e", "title",
"file", "size", "mtime"}`). -/
structure Episode where
  eid : Option String
  s : Nat
  e : Nat
  title : String
  file : String
  size : Nat
  mtime : Int
  deriving Repr, DecidableEq

/-- `_add_or_update_episode` restricted to one season's episode list.  The
filesystem facts `size`/`mtime` of the incoming file are passed as data
(the source obtains them via `safe_size`/`safe_mtime`). -/
def addOrUpdateEpisode (lst : List Episode) (season epnum : Nat)
    (title file : String) (size : Nat) (mtime : Int) : List Episode :=
  match lst with
  | [] => [⟨none, season, epnum, title, file, size, mtime⟩]
  | item :: rest =>
    if item.e = epnum then
      { item with
        file := if size > item.size then file else item.file,
        mtime := if size > item.size then mtime else item.mtime,
        title := if item.title = "" && title ≠ "" then title else item.title,
        size := if size > item.size then size else item.size } :: rest
    else item :: addOrUpdateEpisode rest season epnum title file size mtime

/-! ## Candidate scorer (`_norm_title`, `_token_set`, `_year_score`,
`_sim_score`) -/

/-- `_norm_title`: lower-case, punctuation (`[^\w\s]`) to spaces, whitespace
collapse, strip, then drop one leading article. -/
def normTitle (t : String) : List Char :=
  let low := t.data.map Char.toLower
  let nopunct := low.map (fun c => if !isWordChar c && !isSpaceChar c then ' ' else c)
  let base := pystrip (collapseWs nopunct)
  if base.take 4 = "the ".data then base.drop 4
  else if base.take 3 = "an ".data then base.drop 3
  else if base.take 2 = "a ".data then base.drop 2
  else base

/-- `_token_set`. -/
def tokenSet (t : String) : Finset String :=
  ((wordsOf (normTitle t)).map String.mk).toFinset

/-- `_year_score`.  Python truthiness: a year equal to `0` is treated as
absent. -/
def yearScore (qy cy : Option Int) : ℚ :=
  match qy, cy with
  | some a, some b =>
    if a = 0 || b = 0 then 0
    else
      let d := (a - b).natAbs
      if d = 0 then 1/4
      else if d ≤ 1 then 9/50
      else if d = 2 then 1/10
      else -(1/10)
  | _, _ => 0

/-- Substring test (Python `in` on strings). -/
def strHasSub (needle hay : List Char) : Bool :=
  decide (needle <:+: hay)

/-- `_sim_score`. -/
def simScore (qtitle ctitle : String) (qyear cyear : Option Int) (hasPoster : Bool) : ℚ :=
  let qs := tokenSet qtitle
  let cs := tokenSet ctitle
  let inter := (qs ∩ cs).card
  let union := max 1 (qs ∪ cs).card
  let jacc : ℚ := (inter : ℚ) / (union : ℚ)
  let y := yearScore qyear cyear
  let posterBonus : ℚ := if hasPoster then 1/20 else 0
  let colonBonus : ℚ :=
    if strHasSub ((normTitle qtitle).filter (· ≠ ':')) ((normTitle ctitle).filter (· ≠ ':')) ||
       strHasSub ((normTitle ctitle).filter (· ≠ ':')) ((normTitle qtitle).filter (· ≠ ':'))
    then 2/25 else 0
  jacc + y + posterBonus + colonBonus

/-! ## Candidate pickers (`_pick_best_movie`, `_pick_best_tv`) -/

/-- One TMDB movie search result.  `""` models a JSON `null`/absent string
field; `id` is `none` when absent, and Python truthiness treats `0` as
absent too. -/
structure MovieCand where
  title : String
  original_title : String
  release_date : String
  poster_path : String
  overview : String
  id : Option Nat
  deriving Repr, DecidableEq

/-- `r.get("title") or r.get("original_title") or ""`. -/
def candTitle (r : MovieCand) : String :=
  if r.title ≠ "" then r.title else if r.original_title ≠ "" then r.original_title else ""

def digitsToInt (cs : List Char) : Int :=
  cs.foldl (fun a c => 10 * a + (digitVal c : Int)) 0

/-- `int(release_date[:4]) if release_date[:4].isdigit() else None`. -/
def candYear (r : MovieCand) : Option Int :=
  let p := r.release_date.data.take 4
  if p ≠ [] && p.all Char.isDigit then some (digitsToInt p) else none

/-- The running-best loop of both pickers: strictly greater score replaces
the best, so ties keep the earlier candidate. -/
def pickLoop (score : α → ℚ) : List α → Option α → ℚ → Option α
  | [], best, _ => best
  | r :: rs, best, bs =>
    if score r > bs then pickLoop score rs (some r) (score r)
    else pickLoop score rs best bs

/-- `for r in results[:10]` with `best, best_score = None, -1`. -/
def pickBestWith (score : α → ℚ) (results : List α) : Option α :=
  pickLoop score (results.take 10) none (-1)

def movieScore (qt : String) (qy : Option Int) (r : MovieCand) : ℚ :=
  simScore qt (candTitle r) qy (candYear r) (r.poster_path ≠ "")

/-- `_pick_best_movie(result_json, query_title, query_year)`; the argument
is `none` for an absent/failed response, otherwise the `results` list. -/
def pickBestMovie (rj : Option (List MovieCand)) (qt : String) (qy : Option Int) :
    Option MovieCand :=
  match rj with
  | none => none
  | some rs => pickBestWith (movieScore qt qy) rs

/-- One TMDB TV search result. -/
structure TvCand where
  name : String
  original_name : String
  first_air_date : String
  poster_path : String
  overview : String
  id : Option Nat
  deriving Repr, DecidableEq

def tvCandTitle (r : TvCand) : String :=
  if r.name ≠ "" then r.name else if r.original_name ≠ "" then r.original_name else ""

def tvCandYear (r : TvCand) : Option Int :=
  let p := r.first_air_date.data.take 4
  if p ≠ [] && p.all Char.isDigit then some (digitsToInt p) else none

def tvScore (qt : String) (r : TvCand) : ℚ :=
  simScore qt (tvCandTitle r) none (tvCandYear r) (r.poster_path ≠ "")

/-- `_pick_best_tv(result_json, query_title)` (always year-less scoring). -/
def pickBestTv (rj : Option (List TvCand)) (qt : String) : Option TvCand :=
  match rj with
  | none => none
  | some rs => pickBestWith (tvScore qt) rs

/-! ## Query-variant generator (`try_search_variants` in `enrich_movies`) -/

/-- `re.sub(r"\b(19\d{2}|20\d{2})\b", "", t)`: remove standalone year
tokens, tracking the previous character for the leading `\b`. -/
def stripYearTokens : Option Char → List Char → List Char
  | _, [] => []
  | prev, c1 :: c2 :: c3 :: c4 :: rest =>
    if boundaryOk prev && (yearHead (c1 :: c2 :: c3 :: c4 :: rest)).isSome && bOk rest then
      stripYearTokens (some c4) rest
    else c1 :: stripYearTokens (some c1) (c2 :: c3 :: c4 :: rest)
  | _, c :: cs => c :: stripYearTokens (some c) cs
termination_by _ cs => cs.length
decreasing_by all_goals simp_arith [List.length]

/-- `re.sub(r"[._]+", " ", t)`: each run of dots/underscores becomes one
space. -/
def subDotsGo : List Char → Bool → List Char
  | [], _ => []
  | c :: cs, inRun =>
    if c = '.' || c = '_' then
      if inRun then subDotsGo cs true else ' ' :: subDotsGo cs true
    else c :: subDotsGo cs false

/-- `re.sub(r"[^\w\s:]", " ", t).strip()`: keep word chars, whitespace and
colons; every other char becomes one space (no collapsing). -/
def subPunctKeepColon (cs : List Char) : List Char :=
  pystrip (cs.map (fun c => if isWordChar c || isSpaceChar c || c = ':' then c else ' '))

def lowerStr (s : String) : String := String.mk (s.data.map Char.toLower)

/-- Attempt-deduplication key `(qtitle or "").lower() + "|" + str(y)`. -/
def attemptKey (q : String) (y : Option Int) : String :=
  lowerStr q ++ "|" ++ (match y with | none => "None" | some v => toString v)

/-- The colon-insertion variant for two/three-plus word titles. -/
def colonVariant (tBase : List Char) : List String :=
  if tBase.contains ':' then []
  else
    let ws := wordsOf (collapseWs tBase)
    match ws with
    | [] => []
    | [_] => []
    | [w0, w1] => [String.mk w0 ++ ": " ++ String.mk w1]
    | w0 :: w1 :: rest =>
      [String.mk w0 ++ " " ++ String.mk w1 ++ ": " ++ String.mk (joinWords rest)]

/-- The ordered `(qtitle, use_year)` inputs fed to `attempt` by
`try_search_variants`, before per-key deduplication.  For the year-aware
path the dedup key year and the year sent to the provider coincide, so one
pair per attempt is faithful. -/
def attemptInputs (title : String) (year : Option Int) (forceYearless : Bool) :
    List (String × Option Int) :=
  let tBase : List Char :=
    if forceYearless then pystrip (collapseWs (stripYearTokens none title.data))
    else title.data
  let variants : List String :=
    [String.mk tBase, String.mk (subDotsGo tBase false), String.mk (subPunctKeepColon tBase)]
      ++ (if forceYearless then colonVariant tBase else [])
  let t0 : String :=
    String.mk (pystrip (collapseWs (tBase.map (fun c => if c = ':' then ' ' else c))))
  if forceYearless then
    variants.map (fun t => (t, none)) ++ [(t0, none)]
  else
    let sweep : List Int := match year with
      | none => []
      | some y => if y = 0 then [] else [y, y - 1, y + 1, y - 2, y + 2]
    (sweep.flatMap (fun y => variants.map (fun t => (t, some y))))
      ++ variants.map (fun t => (t, none)) ++ [(t0, none)]

/-- Run the attempts against a provider with the `seen` dedup set; stop at
the first attempt whose response has a non-empty result list and whose
picker accepts a candidate. -/
def runAttempts (provider : String → Option Int → Option (List MovieCand)) :
    List (String × Option Int) → List String → Option (MovieCand × String)
  | [], _ => none
  | (q, y) :: rest, seen =>
    let k := attemptKey q y
    if q = "" || seen.contains k then runAttempts provider rest seen
    else
      match provider q y with
      | some results =>
        if results ≠ [] then
          match pickBestMovie (some results) q y with
          | some best => some (best, q)
          | none => runAttempts provider rest (k :: seen)
        else runAttempts provider rest (k :: seen)
      | none => runAttempts provider rest (k :: seen)

/-- The trace of `(query, year)` pairs actually sent to the provider when
every search fails (the provider returns no results). -/
def runAttemptsTrace : List (String × Option Int) → List String → List (String × Option Int)
  | [], _ => []
  | (q, y) :: rest, seen =>
    let k := attemptKey q y
    if q = "" || seen.contains k then runAttemptsTrace rest seen
    else (q, y) :: runAttemptsTrace rest (k :: seen)

/-- `try_search_variants(title, year, force_yearless)`. -/
def trySearchVariants (title : String) (year : Option Int) (forceYearless : Bool)
    (provider : String → Option Int → Option (List MovieCand)) :
    Option (MovieCand × String) :=
  runAttempts provider (attemptInputs title year forceYearless) []

/-- The search attempts a single entity generates when no variant matches.
`enrich_movies` invokes `try_search_variants(item["title"], item["year"])`
with `force_yearless` left at its default `False` for every category —
`build_site` routes movies, stand-up and documentaries all through
`enrich_movies`. -/
def enrichSearchCalls (title : String) (year : Option Int) : List (String × Option Int) :=
  runAttemptsTrace (attemptInputs title year false) []

/-! ## Enrichment cache merge (`enrich_movies` / `enrich_shows`) -/

/-- A movie cache record in its stored shape.  `genres`/`cast` are `[]`
when absent (the write path stores `genres or []`), string URLs/taglines
are `""` when absent, numeric fields are `none` when `null`. -/
structure MovieRec where
  movie_id : Option Nat
  poster_url : String
  overview : String
  genres : List String
  runtime : Option Int
  vote : Option ℚ
  certification : Option String
  cast : List String
  backdrop_url : String
  tagline : String
  deriving Repr, DecidableEq

def freshMovieRec : MovieRec :=
  ⟨none, "", "", [], none, none, none, [], "", ""⟩

/-- The movie-details response fields the merge consumes.  `release_dates`
is the list of `(iso_3166_1, certifications)` entries. -/
structure MovieDetails where
  genres : List String
  runtime : Option Int
  vote_average : Option ℚ
  tagline : String
  backdrop_path : String
  release_dates : List (String × List String)
  cast : List String
  deriving Repr, DecidableEq

/-- Python `x or y` for optional ids (`0` is falsy). -/
def pyOrId (a b : Option Nat) : Option Nat :=
  match a with
  | some n => if n = 0 then b else some n
  | none => b

def truthyId : Option Nat → Bool
  | none => false
  | some n => n ≠ 0

/-- Python `str.strip()` on `String`. -/
def pystripS (s : String) : String := String.mk (pystrip s.data)

def POSTER_BASE : String := "https://image.tmdb.org/t/p/w342"
def BACKDROP_BASE : String := "https://image.tmdb.org/t/p/w1280"

/-- `extract_cert_from_movie_release_dates`: first non-empty stripped US
certification. -/
def extractCert (entries : List (String × List String)) : Option String :=
  match entries.find? (fun e => e.1 = "US") with
  | none => none
  | some e => (e.2.map pystripS).find? (fun c => c ≠ "")

/-- `need_details = not (genres and runtime is not None and vote is not None
and cert is not None and cast)`. -/
def needDetails (c : MovieRec) : Bool :=
  !(!c.genres.isEmpty && c.runtime.isSome && c.vote.isSome
    && c.certification.isSome && !c.cast.isEmpty)

/-- The search-result merge of `enrich_movies` (provider values preferred
for id, poster and overview). -/
def applyMovieSearch (c : MovieRec) (sr : Option MovieCand) : MovieRec :=
  match sr with
  | none => c
  | some best =>
    { c with
      movie_id := pyOrId best.id c.movie_id,
      poster_url := if best.poster_path ≠ "" then POSTER_BASE ++ best.poster_path
                    else c.poster_url,
      overview := pystripS (if best.overview ≠ "" then best.overview
                            else if c.overview ≠ "" then c.overview else "") }

/-- The details merge of `enrich_movies`. -/
def applyMovieDetails (c : MovieRec) (dr : Option MovieDetails) : MovieRec :=
  match dr with
  | none => c
  | some det =>
    { c with
      genres := if !c.genres.isEmpty then c.genres else det.genres.filter (· ≠ ""),
      runtime := if c.runtime.isSome then c.runtime else det.runtime,
      vote := if c.vote.isSome then c.vote else det.vote_average,
      tagline := pystripS (if det.tagline ≠ "" then det.tagline
                           else if c.tagline ≠ "" then c.tagline else ""),
      backdrop_url := if det.backdrop_path ≠ "" && c.backdrop_url = ""
                      then BACKDROP_BASE ++ det.backdrop_path else c.backdrop_url,
      certification := match c.certification with
        | some s => if s = "" then extractCert det.release_dates else some s
        | none => extractCert det.release_dates,
      cast := if !c.cast.isEmpty then c.cast else (det.cast.filter (· ≠ "")).take 5 }

/-- `if not movie_id or need_details or not poster_url or not overview`. -/
def movieSearchGate (c : MovieRec) : Bool :=
  !truthyId c.movie_id || needDetails c || c.poster_url = "" || c.overview = ""

/-- `if movie_id and (need_details or not backdrop or not tagline)` — the
`need` flag was computed from the loaded cache record before the search. -/
def movieDetailsGate (need : Bool) (c1 : MovieRec) : Bool :=
  truthyId c1.movie_id && (need || c1.backdrop_url = "" || c1.tagline = "")

/-- One `enrich_movies` loop body for one entity, with the provider's two
responses as data: the accepted search candidate (if the search gate fires
and a variant is accepted) and the details document (if the details gate
fires).  The final dictionary write (`genres or []`, `backdrop or ""`, …)
is the identity in this typed model. -/
def mergeMovieStep (c : MovieRec) (sr : Option MovieCand) (dr : Option MovieDetails) :
    MovieRec :=
  let c1 := if movieSearchGate c then applyMovieSearch c sr else c
  if movieDetailsGate (needDetails c) c1 then applyMovieDetails c1 dr else c1

/-- One enrichment work item: the cache key `"<title>|<year>"` and the
provider responses for this entity (fixed across runs when the provider
returns the same data). -/
structure EnrichItem where
  key : String
  sr : Option MovieCand
  dr : Option MovieDetails

/-- The whole `enrich_movies` pass over the movie cache, modelled
pointwise on keys (the JSON dictionary read by `load_cache` /
written by `save_cache`). -/
def runEnrichMovies : List EnrichItem → (String → MovieRec) → (String → MovieRec)
  | [], cache => cache
  | it :: rest, cache =>
    runEnrichMovies rest
      (fun k => if k = it.key then mergeMovieStep (cache it.key) it.sr it.dr else cache k)

/-- A TV show cache record in its stored shape. -/
structure ShowRec where
  tv_id : Option Nat
  poster_url : String
  overview : String
  genres : List String
  vote : Option ℚ
  first_year : Option Int
  cast : List String
  backdrop_url : String
  tagline : String
  deriving Repr, DecidableEq

structure TvDetails where
  genres : List String
  vote_average : Option ℚ
  tagline : String
  backdrop_path : String
  first_air_date : String
  cast : List String
  deriving Repr, DecidableEq

/-- `first_air_year_from(date_str)`. -/
def firstAirYearFrom (ds : String) : Option Int :=
  if ds = "" then none
  else
    let part := ds.data.takeWhile (· ≠ '-')
    if part ≠ [] && part.all Char.isDigit then some (digitsToInt part) else none

def needTvDetails (c : ShowRec) : Bool :=
  !(!c.genres.isEmpty && c.vote.isSome && c.first_year.isSome && !c.cast.isEmpty)

/-- The search-result merge of `enrich_shows`; note `first_year` is
reassigned unconditionally from the candidate. -/
def applyTvSearch (c : ShowRec) (sr : Option TvCand) : ShowRec :=
  match sr with
  | none => c
  | some best =>
    { c with
      tv_id := pyOrId best.id c.tv_id,
      poster_url := if best.poster_path ≠ "" then POSTER_BASE ++ best.poster_path
                    else c.poster_url,
      overview := pystripS (if best.overview ≠ "" then best.overview
                            else if c.overview ≠ "" then c.overview else ""),
      first_year := firstAirYearFrom best.first_air_date }

def truthyYearOpt : Option Int → Bool
  | none => false
  | some v => v ≠ 0

/-- The details merge of `enrich_shows`. -/
def applyTvDetails (c : ShowRec) (dr : Option TvDetails) : ShowRec :=
  match dr with
  | none => c
  | some det =>
    { c with
      genres := if !c.genres.isEmpty then c.genres else det.genres.filter (· ≠ ""),
      vote := if c.vote.isSome then c.vote else det.vote_average,
      tagline := pystripS (if det.tagline ≠ "" then det.tagline
                           else if c.tagline ≠ "" then c.tagline else ""),
      backdrop_url := if det.backdrop_path ≠ "" && c.backdrop_url = ""
                      then BACKDROP_BASE ++ det.backdrop_path else c.backdrop_url,
      first_year := if truthyYearOpt c.first_year then c.first_year
                    else firstAirYearFrom det.first_air_date,
      cast := if !c.cast.isEmpty then c.cast else (det.cast.filter (· ≠ "")).take 5 }

def tvSearchGate (c : ShowRec) : Bool :=
  !truthyId c.tv_id || needTvDetails c || c.poster_url = "" || c.overview = ""

def tvDetailsGate (need : Bool) (c1 : ShowRec) : Bool :=
  truthyId c1.tv_id && (need || c1.backdrop_url = "" || c1.tagline = "")

/-- One `enrich_shows` loop body for one show. -/
def mergeShowStep (c : ShowRec) (sr : Option TvCand) (dr : Option TvDetails) : ShowRec :=
  let c1 := if tvSearchGate c then applyTvSearch c sr else c
  if tvDetailsGate (needTvDetails c) c1 then applyTvDetails c1 dr else c1

/-! ## Playback launch guard (`_launch`, `launch_episode`,
`launch_and_render`) -/

/-- The filesystem facts `_launch` consults, passed in as data. -/
structure FsView where
  realpath : String → String
  isfile : String → Bool

/-- `_launch` spawns the media player only when this guard passes (an
exception inside the `try` can only prevent the spawn). -/
def launchGuard (fs : FsView) (baseRoot filepath : String) : Bool :=
  (fs.realpath filepath).startsWith (fs.realpath baseRoot)

/-- One playback request as routed by `do_GET`. -/
inductive PlayRequest where
  | movie (mid : String)
  | standupItem (mid : String)
  | docItem (mid : String)
  | episode (eid : String)
  deriving Repr, DecidableEq

/-- The per-category indexes and library roots the handler works with. -/
structure SiteState where
  moviesIndex : String → Option String
  standupIndex : String → Option String
  docsIndex : String → Option String
  episodesIndex : String → Option String
  moviesRoot : String
  standupRoot : String
  docsRoot : String
  showsRoot : String

def requestIndex (st : SiteState) : PlayRequest → Option String
  | .movie mid => st.moviesIndex mid
  | .standupItem mid => st.standupIndex mid
  | .docItem mid => st.docsIndex mid
  | .episode eid => st.episodesIndex eid

def requestRoot (st : SiteState) : PlayRequest → String
  | .movie _ => st.moviesRoot
  | .standupItem _ => st.standupRoot
  | .docItem _ => st.docsRoot
  | .episode _ => st.showsRoot

/-- Whether handling the playback request spawns a player process:
`launch_and_render` / `launch_episode` look the id up (`.get(id, "")`),
require a truthy path naming an existing file, and `_launch` then applies
the realpath prefix guard. -/
def playbackSpawns (fs : FsView) (st : SiteState) (req : PlayRequest) : Bool :=
  let fp := (requestIndex st req).getD ""
  fp ≠ "" && fs.isfile fp && launchGuard fs (requestRoot st req) fp

/-! ## Spec-side definitions (written from the specification's wording,
for comparison with the source-side definitions) -/

/-- Spec: token sets are produced by lower-casing, stripping punctuation,
collapsing whitespace, and dropping a single leading article
("the"/"a"/"an"). -/
def specTokenSet (t : String) : Finset String :=
  let lowered := t.data.map Char.toLower
  let stripped := lowered.map (fun c => if isWordChar c || isSpaceChar c then c else ' ')
  let collapsed := pystrip (collapseWs stripped)
  let noArticle :=
    if collapsed.take 4 = "the ".data then collapsed.drop 4
    else if collapsed.take 3 = "an ".data then collapsed.drop 3
    else if collapsed.take 2 = "a ".data then collapsed.drop 2
    else collapsed
  ((wordsOf noArticle).map String.mk).toFinset

/-- Spec: `jaccard(A, B) = |A ∩ B| / |A ∪ B|` (with `ℚ`'s `0/0 = 0` for two
empty token sets). -/
def specJaccard (A B : Finset String) : ℚ :=
  ((A ∩ B).card : ℚ) / ((A ∪ B).card : ℚ)

/-- Spec: `+0.25` exact match, `+0.18` within 1 year, `+0.10` within 2
years, `−0.10` otherwise, and `0` when either year is absent. -/
def specYearTerm (qy cy : Option Int) : ℚ :=
  match qy, cy with
  | some a, some b =>
    let d := (a - b).natAbs
    if d = 0 then 1/4 else if d = 1 then 9/50 else if d = 2 then 1/10 else -(1/10)
  | _, _ => 0

/-- Amended year term: Python truthiness also treats a year equal to `0`
as absent. -/
def amendedYearTerm (qy cy : Option Int) : ℚ :=
  match qy, cy with
  | some a, some b =>
    if a = 0 ∨ b = 0 then 0
    else
      let d := (a - b).natAbs
      if d = 0 then 1/4 else if d = 1 then 9/50 else if d = 2 then 1/10 else -(1/10)
  | _, _ => 0

/-- Spec: `+0.05` if the candidate has a poster image. -/
def specPosterBonus (hasPoster : Bool) : ℚ := if hasPoster then 1/20 else 0

/-- Spec: `+0.08` if one title's colon-stripped (normalized) form is a
substring of the other's. -/
def specColonBonus (qtitle ctitle : String) : ℚ :=
  let q := (normTitle qtitle).filter (· ≠ ':')
  let c := (normTitle ctitle).filter (· ≠ ':')
  if strHasSub q c || strHasSub c q then 2/25 else 0

/-- The spec's score formula, verbatim. -/
def specScore (qtitle ctitle : String) (qyear cyear : Option Int) (hasPoster : Bool) : ℚ :=
  specJaccard (specTokenSet qtitle) (specTokenSet ctitle)
    + specYearTerm qyear cyear + specPosterBonus hasPoster + specColonBonus qtitle ctitle

/-- The amended score formula: identical except that the year term treats a
zero year as absent. -/
def amendedScore (qtitle ctitle : String) (qyear cyear : Option Int) (hasPoster : Bool) : ℚ :=
  specJaccard (specTokenSet qtitle) (specTokenSet ctitle)
    + amendedYearTerm qyear cyear + specPosterBonus hasPoster + specColonBonus qtitle ctitle

/-- Scan state predicate for the C6 hypotheses: no `SxxEyy` match starts
inside `pre` (also not one spilling over into `rest`). -/
def noShowMatchBefore : Option Char → List Char → List Char → Bool
  | _, [], _ => true
  | prev, c :: cs, rest =>
    !(boundaryOk prev && (matchFrom (c :: (cs ++ rest))).isSome)
      && noShowMatchBefore (some c) cs rest

/-- The previous-character context after scanning past `pre`. -/
def prevAfter (prev : Option Char) (pre : List Char) : Option Char :=
  match pre.getLast? with
  | some c => some c
  | none => prev

/-- Value of a digit string (`int` on 1–2 digit groups). -/
def digitsVal (cs : List Char) : Nat :=
  cs.foldl (fun a c => 10 * a + digitVal c) 0

/-- The concrete cache record of the C2 counterexample: every
`need_details` field except `cast` populated, so the search gate fires. -/
def c2CacheRec : MovieRec :=
  { movie_id := some 5, poster_url := "p.jpg", overview := "A", genres := ["Drama"],
    runtime := some 100, vote := some 7, certification := some "PG", cast := [],
    backdrop_url := "b.jpg", tagline := "t" }

/-- The accepted provider candidate of the C2 counterexample: same id, a
different non-empty overview. -/
def c2Best : MovieCand :=
  { title := "T", original_title := "", release_date := "", poster_path := "",
    overview := "B", id := some 5 }

end Cinema

namespace Cinema

/-! ## Theorems -/

/-- Score lower bound: the Jaccard part is non-negative. -/
theorem jacc_nonneg (A B : Finset String) :
    (0 : ℚ) ≤ ((A ∩ B).card : ℚ) / (max 1 (A ∪ B).card : ℕ) := by
  apply div_nonneg
  · exact_mod_cast Nat.zero_le _
  · exact_mod_cast Nat.zero_le _

/-- `_year_score` is bounded below by `-0.1`. -/
theorem yearScore_ge (qy cy : Option Int) : -(1/10 : ℚ) ≤ yearScore qy cy := by
  unfold yearScore
  rcases qy with _ | a <;> rcases cy with _ | b <;> simp <;> split <;> norm_num
  <;> split <;> norm_num <;> split <;> norm_num <;> split <;> norm_num

/-- `_sim_score` always exceeds the initial running best `-1`. -/
theorem simScore_gt_neg_one (qt ct : String) (qy cy : Option Int) (hp : Bool) :
    (-1 : ℚ) < simScore qt ct qy cy hp := by
  unfold simScore
  have h1 := jacc_nonneg (tokenSet qt) (tokenSet ct)
  have h2 := yearScore_ge qy cy
  have h3 : (0:ℚ) ≤ (if hp then (1/20 : ℚ) else 0) := by split <;> norm_num
  have h4 : (0:ℚ) ≤ (if strHasSub ((normTitle qt).filter (· ≠ ':')) ((normTitle ct).filter (· ≠ ':')) ||
       strHasSub ((normTitle ct).filter (· ≠ ':')) ((normTitle qt).filter (· ≠ ':'))
    then (2/25:ℚ) else 0) := by split <;> norm_num
  push_cast at h1 ⊢
  nlinarith

/-- Once the running best is set it is never unset. -/
theorem pickLoop_isSome (score : α → ℚ) (l : List α) (b : α) (bs : ℚ) :
    (pickLoop score l (some b) bs).isSome = true := by
  induction l generalizing b bs with
  | nil => rfl
  | cons r rs ih =>
    unfold pickLoop
    split
    · exact ih r (score r)
    · exact ih b bs

/-- Unfolding equation for the loop body. -/
theorem pickLoop_cons (score : α → ℚ) (r : α) (rs : List α) (best : Option α) (bs : ℚ) :
    pickLoop score (r :: rs) best bs =
      if score r > bs then pickLoop score rs (some r) (score r)
      else pickLoop score rs best bs := rfl

/-- Characterization of the running-best loop: either nothing beats the
incoming score and the accumulator survives, or the result is the first
list element attaining the maximum. -/
theorem pickLoop_char (score : α → ℚ) (l : List α) (best : Option α) (bs : ℚ) :
    ((∀ x ∈ l, score x ≤ bs) ∧ pickLoop score l best bs = best)
    ∨ ∃ i : Fin l.length, pickLoop score l best bs = some (l.get i)
        ∧ bs < score (l.get i)
        ∧ (∀ j : Fin l.length, score (l.get j) ≤ score (l.get i))
        ∧ (∀ j : Fin l.length, (j : ℕ) < (i : ℕ) → score (l.get j) < score (l.get i)) := by
  induction l generalizing best bs with
  | nil => exact Or.inl ⟨by simp, rfl⟩
  | cons r rs ih =>
    by_cases hr : score r > bs
    · have heq : pickLoop score (r :: rs) best bs = pickLoop score rs (some r) (score r) := by
        rw [pickLoop_cons, if_pos hr]
      rcases ih (some r) (score r) with ⟨hle, hres⟩ | ⟨i, hres, hgt, hmax, hfirst⟩
      · refine Or.inr ⟨⟨0, by simp⟩, ?_, hr, ?_, ?_⟩
        · rw [heq, hres]; rfl
        · intro j
          rcases j with ⟨j, hj⟩
          cases j with
          | zero => exact le_refl _
          | succ j' => exact hle _ (rs.get_mem j' (by simpa using hj))
        · intro j hj
          exact absurd hj (by simp)
      · refine Or.inr ⟨i.succ, ?_, lt_trans hr hgt, ?_, ?_⟩
        · rw [heq, hres]; rfl
        · intro j
          rcases j with ⟨j, hj⟩
          cases j with
          | zero => exact le_of_lt hgt
          | succ j' => exact hmax ⟨j', by simpa using hj⟩
        · intro j hj
          rcases j with ⟨j, hjlt⟩
          cases j with
          | zero => exact hgt
          | succ j' =>
            exact hfirst ⟨j', by simpa using hjlt⟩ (by simpa using hj)
    · push_neg at hr
      have heq : pickLoop score (r :: rs) best bs = pickLoop score rs best bs := by
        rw [pickLoop_cons, if_neg (by simpa using hr)]
      rcases ih best bs with ⟨hle, hres⟩ | ⟨i, hres, hgt, hmax, hfirst⟩
      · refine Or.inl ⟨?_, by rw [heq, hres]⟩
        intro x hx
        rcases List.mem_cons.mp hx with h | h
        · exact h ▸ hr
        · exact hle x h
      · refine Or.inr ⟨i.succ, ?_, hgt, ?_, ?_⟩
        · rw [heq, hres]; rfl
        · intro j
          rcases j with ⟨j, hj⟩
          cases j with
          | zero => exact le_trans hr (le_of_lt hgt)
          | succ j' => exact hmax ⟨j', by simpa using hj⟩
        · intro j hj
          rcases j with ⟨j, hjlt⟩
          cases j with
          | zero => exact lt_of_le_of_lt hr hgt
          | succ j' =>
            exact hfirst ⟨j', by simpa using hjlt⟩ (by simpa using hj)

/-- The movie picker accepts some candidate exactly when a response is
present with a non-empty result list (no minimum acceptance score). -/
theorem pickBestMovie_isSome_iff (qt : String) (qy : Option Int)
    (rj : Option (List MovieCand)) :
    (pickBestMovie rj qt qy).isSome = true ↔ ∃ rs, rj = some rs ∧ rs ≠ [] := by
  cases rj with
  | none => simp [pickBestMovie]
  | some rs =>
    cases rs with
    | nil => simp [pickBestMovie, pickBestWith, pickLoop]
    | cons r rs' =>
      simp only [pickBestMovie, pickBestWith]
      constructor
      · intro _
        exact ⟨r :: rs', rfl, by simp⟩
      · intro _
        have h10 : (r :: rs').take 10 = r :: rs'.take 9 := rfl
        have hgt : movieScore qt qy r > -1 :=
          simScore_gt_neg_one qt (candTitle r) qy (candYear r) _
        rw [h10, pickLoop_cons, if_pos hgt]
        exact pickLoop_isSome _ _ _ _

/-- Unfolding equation for `runAttempts`. -/
theorem runAttempts_cons (provider : String → Option Int → Option (List MovieCand))
    (q : String) (y : Option Int) (rest : List (String × Option Int)) (seen : List String) :
    runAttempts provider ((q, y) :: rest) seen =
      if (q = "" || seen.contains (attemptKey q y)) then runAttempts provider rest seen
      else
        match provider q y with
        | some results =>
          if results ≠ [] then
            match pickBestMovie (some results) q y with
            | some best => some (best, q)
            | none => runAttempts provider rest (attemptKey q y :: seen)
          else runAttempts provider rest (attemptKey q y :: seen)
        | none => runAttempts provider rest (attemptKey q y :: seen) := rfl

/-- Unfolding equation for `runAttemptsTrace`. -/
theorem runAttemptsTrace_cons (q : String) (y : Option Int)
    (rest : List (String × Option Int)) (seen : List String) :
    runAttemptsTrace ((q, y) :: rest) seen =
      if (q = "" || seen.contains (attemptKey q y)) then runAttemptsTrace rest seen
      else (q, y) :: runAttemptsTrace rest (attemptKey q y :: seen) := rfl

/-- `runAttempts` succeeds exactly when some deduplicated attempt in the
trace gets a response with a non-empty result list; in particular the
first such attempt is accepted. -/
theorem runAttempts_isSome_iff (provider : String → Option Int → Option (List MovieCand))
    (inputs : List (String × Option Int)) (seen : List String) :
    (runAttempts provider inputs seen).isSome = true ↔
      ∃ p ∈ runAttemptsTrace inputs seen, ∃ rs, provider p.1 p.2 = some rs ∧ rs ≠ [] := by
  induction inputs generalizing seen with
  | nil => simp [runAttempts, runAttemptsTrace]
  | cons qy rest ih =>
    obtain ⟨q, y⟩ := qy
    by_cases hskip : (q = "" || seen.contains (attemptKey q y)) = true
    · rw [runAttempts_cons, runAttemptsTrace_cons, if_pos hskip, if_pos hskip]
      exact ih seen
    · rw [runAttempts_cons, runAttemptsTrace_cons, if_neg hskip, if_neg hskip]
      cases hpr : provider q y with
      | none =>
        simp only [List.mem_cons]
        rw [ih]
        constructor
        · rintro ⟨p, hp, hrs⟩
          exact ⟨p, Or.inr hp, hrs⟩
        · rintro ⟨p, hp | hp, hrs⟩
          · obtain ⟨rs, hrs1, _⟩ := hrs
            rw [hp] at hrs1
            simp [hpr] at hrs1
          · exact ⟨p, hp, hrs⟩
      | some results =>
        cases results with
        | nil =>
          simp only [ne_eq, not_true_eq_false, if_false, List.mem_cons]
          rw [ih]
          constructor
          · rintro ⟨p, hp, hrs⟩
            exact ⟨p, Or.inr hp, hrs⟩
          · rintro ⟨p, hp | hp, hrs⟩
            · obtain ⟨rs, hrs1, hrs2⟩ := hrs
              rw [hp] at hrs1
              rw [hpr] at hrs1
              cases hrs1
              exact absurd rfl hrs2
            · exact ⟨p, hp, hrs⟩
        | cons r rs' =>
          have hsome : (pickBestMovie (some (r :: rs')) q y).isSome = true :=
            (pickBestMovie_isSome_iff q y (some (r :: rs'))).mpr ⟨r :: rs', rfl, by simp⟩
          obtain ⟨best, hbest⟩ := Option.isSome_iff_exists.mp hsome
          simp only [ne_eq, reduceCtorEq, not_false_eq_true, if_true, hbest]
          constructor
          · intro _
            exact ⟨(q, y), List.mem_cons_self _ _, r :: rs', hpr, by simp⟩
          · intro _
            rfl

/-- The running-best loop over the first ten results returns the earliest
maximal-score element. -/
theorem pickBestWith_argmax (score : α → ℚ) (l : List α) (hl : l ≠ [])
    (hgt : ∀ x, (-1 : ℚ) < score x) :
    ∃ i : Fin (l.take 10).length, pickBestWith score l = some ((l.take 10).get i)
      ∧ (∀ j, score ((l.take 10).get j) ≤ score ((l.take 10).get i))
      ∧ (∀ j : Fin (l.take 10).length, (j : ℕ) < (i : ℕ) →
          score ((l.take 10).get j) < score ((l.take 10).get i)) := by
  rcases pickLoop_char score (l.take 10) none (-1) with ⟨hle, _⟩ | ⟨i, hres, _, hmax, hfirst⟩
  · obtain ⟨x, hx⟩ : ∃ x, x ∈ l.take 10 := by
      cases l with
      | nil => exact absurd rfl hl
      | cons a as => exact ⟨a, by simp⟩
    exact absurd (hle x hx) (not_le.mpr (hgt x))
  · exact ⟨i, hres, hmax, hfirst⟩

/-- C4: both pickers consider only the first 10 results and return the
candidate with the strictly highest similarity score, the earliest one on
ties (stable tie-breaking). -/
theorem C4_picker_first_ten_argmax_stable :
    (∀ (qt : String) (qy : Option Int) (results : List MovieCand), results ≠ [] →
      pickBestMovie (some results) qt qy = pickBestMovie (some (results.take 10)) qt qy
      ∧ ∃ i : Fin (results.take 10).length,
          pickBestMovie (some results) qt qy = some ((results.take 10).get i)
          ∧ (∀ j, movieScore qt qy ((results.take 10).get j)
                ≤ movieScore qt qy ((results.take 10).get i))
          ∧ (∀ j : Fin (results.take 10).length, (j : ℕ) < (i : ℕ) →
              movieScore qt qy ((results.take 10).get j)
                < movieScore qt qy ((results.take 10).get i)))
    ∧ (∀ (qt : String) (results : List TvCand), results ≠ [] →
      pickBestTv (some results) qt = pickBestTv (some (results.take 10)) qt
      ∧ ∃ i : Fin (results.take 10).length,
          pickBestTv (some results) qt = some ((results.take 10).get i)
          ∧ (∀ j, tvScore qt ((results.take 10).get j) ≤ tvScore qt ((results.take 10).get i))
          ∧ (∀ j : Fin (results.take 10).length, (j : ℕ) < (i : ℕ) →
              tvScore qt ((results.take 10).get j) < tvScore qt ((results.take 10).get i))) := by
  constructor
  · intro qt qy results h
    constructor
    · simp [pickBestMovie, pickBestWith, List.take_take]
    · exact pickBestWith_argmax (movieScore qt qy) results h
        (fun x => simScore_gt_neg_one qt (candTitle x) qy (candYear x) _)
  · intro qt results h
    constructor
    · simp [pickBestTv, pickBestWith, List.take_take]
    · exact pickBestWith_argmax (tvScore qt) results h
        (fun x => simScore_gt_neg_one qt (tvCandTitle x) none (tvCandYear x) _)

/-- Concrete candidates for the C4 witness (the spec's "The Movie" versus
"The Movie Part 2" scenario). -/
def wCand1 : MovieCand :=
  { title := "The Movie", original_title := "", release_date := "2019-03-01",
    poster_path := "/p.jpg", overview := "", id := some 1 }

def wCand2 : MovieCand :=
  { title := "The Movie Part 2", original_title := "", release_date := "2019-05-01",
    poster_path := "/q.jpg", overview := "", id := some 2 }

/-- Witness for C4 at a concrete two-candidate result list. -/
theorem C4_witness :
    ∃ i : Fin (([wCand1, wCand2].take 10).length),
      pickBestMovie (some [wCand1, wCand2]) "The Movie" (some 2019)
        = some (([wCand1, wCand2].take 10).get i)
      ∧ (∀ j, movieScore "The Movie" (some 2019) (([wCand1, wCand2].take 10).get j)
            ≤ movieScore "The Movie" (some 2019) (([wCand1, wCand2].take 10).get i))
      ∧ (∀ j : Fin (([wCand1, wCand2].take 10).length), (j : ℕ) < (i : ℕ) →
          movieScore "The Movie" (some 2019) (([wCand1, wCand2].take 10).get j)
            < movieScore "The Movie" (some 2019) (([wCand1, wCand2].take 10).get i)) :=
  (C4_picker_first_ten_argmax_stable.1 "The Movie" (some 2019) [wCand1, wCand2]
    (by decide)).2

/-- C9: there is no minimum acceptance score — the picker accepts some
candidate whenever the response carries any result at all (the running
best starts at `-1`, below any attainable score), and a whole variant
search succeeds exactly when some deduplicated attempt receives a
non-empty result list, the first such attempt being the accepted one. -/
theorem C9_no_minimum_acceptance_score :
    (∀ (qt : String) (qy : Option Int) (rj : Option (List MovieCand)),
      (pickBestMovie rj qt qy).isSome = true ↔ ∃ rs, rj = some rs ∧ rs ≠ [])
    ∧ (∀ (title : String) (year : Option Int) (fy : Bool)
        (provider : String → Option Int → Option (List MovieCand)),
      (trySearchVariants title year fy provider).isSome = true ↔
        ∃ p ∈ runAttemptsTrace (attemptInputs title year fy) [],
          ∃ rs, provider p.1 p.2 = some rs ∧ rs ≠ []) :=
  ⟨fun qt qy rj => pickBestMovie_isSome_iff qt qy rj,
   fun title year fy provider => runAttempts_isSome_iff provider (attemptInputs title year fy) []⟩

/-- C1 (code-bug evidence): the stand-up file "Comedian Title Special
2021" parses to title "Comedian Title Special" with year 2021, and the
very first provider search attempt made for it by `enrich_movies` (which
passes `force_yearless=False` for every category, stand-up and
documentaries included) carries the year 2021; five of the six attempts
carry a year. -/
theorem C1_standup_search_first_attempt_carries_year :
    parseTitleYearFromFolder "Comedian Title Special 2021"
      = ("Comedian Title Special", some 2021)
    ∧ (enrichSearchCalls "Comedian Title Special" (some 2021)).head?
      = some ("Comedian Title Special", some 2021)
    ∧ (enrichSearchCalls "Comedian Title Special" (some 2021)).countP
        (fun c => c.2.isSome) = 5 := by
  refine ⟨?_, ?_, ?_⟩ <;> rfl

/-- C2 counterexample: a cache record whose `overview` field is populated
("A") has it overwritten by the provider's different value ("B") when the
search gate fires (here: `cast` is still missing, so `need_details` holds). -/
theorem C2_counterexample_overview_overwritten :
    c2CacheRec.overview = "A"
    ∧ (mergeMovieStep c2CacheRec (some c2Best) none).overview = "B"
    ∧ ("A" : String) ≠ "B" :=
  ⟨rfl, rfl, by decide⟩

/-- C3 counterexample: at candidate year `0` (release date "0000…puts a
zero year through `int`), `_sim_score` treats the year as absent (Python
falsiness) and returns `27/25`, while the spec's formula — year term
`−0.10` for a large difference with both years present — gives `49/50`. -/
theorem C3_counterexample_zero_year :
    simScore "x" "x" (some 2020) (some 0) false = 27/25
    ∧ specScore "x" "x" (some 2020) (some 0) false = 49/50
    ∧ (27/25 : ℚ) ≠ 49/50 := by
  have h1 : (tokenSet "x").card = 1 := by decide
  have h2 : (strHasSub ((normTitle "x").filter (· ≠ ':')) ((normTitle "x").filter (· ≠ ':')) ||
       strHasSub ((normTitle "x").filter (· ≠ ':')) ((normTitle "x").filter (· ≠ ':'))) = true := by
    decide
  have h3 : yearScore (some 2020) (some 0) = 0 := by decide
  have h4 : specYearTerm (some 2020) (some 0) = -(1/10) := by norm_num [specYearTerm]
  have h5 : (specTokenSet "x").card = 1 := by decide
  refine ⟨?_, ?_, by norm_num⟩
  · simp only [simScore]
    rw [h3, if_pos h2, Finset.inter_self, Finset.union_self, h1]
    norm_num
  · simp only [specScore, specJaccard, specPosterBonus, specColonBonus]
    rw [h4, if_pos h2, Finset.inter_self, Finset.union_self, h5]
    norm_num

/-- The two punctuation-stripping maps (code-side and spec-side) agree. -/
theorem punct_map_eq :
    (fun c => if !isWordChar c && !isSpaceChar c then ' ' else c)
      = (fun c => if isWordChar c || isSpaceChar c then c else ' ') := by
  funext c
  by_cases h1 : isWordChar c <;> by_cases h2 : isSpaceChar c <;> simp [h1, h2]

/-- The spec-side token-set pipeline coincides with `_token_set`. -/
theorem specTokenSet_eq (t : String) : specTokenSet t = tokenSet t := by
  simp only [specTokenSet, tokenSet, normTitle, ← punct_map_eq]

/-- `_year_score` equals the amended year term (zero years count as
absent). -/
theorem yearScore_eq_amended (qy cy : Option Int) :
    yearScore qy cy = amendedYearTerm qy cy := by
  cases qy with
  | none => cases cy <;> rfl
  | some a =>
    cases cy with
    | none => rfl
    | some b =>
      simp only [yearScore, amendedYearTerm, Bool.or_eq_true, decide_eq_true_eq]
      split_ifs <;> first | rfl | omega

/-- The `max 1` guard in the Jaccard denominator is invisible in `ℚ`
(`0 / 0 = 0`). -/
theorem jacc_max_eq (A B : Finset String) :
    ((A ∩ B).card : ℚ) / ((max 1 (A ∪ B).card : ℕ) : ℚ)
      = ((A ∩ B).card : ℚ) / (((A ∪ B).card : ℕ) : ℚ) := by
  by_cases h : (A ∪ B).card = 0
  · have hAB : (A ∩ B).card = 0 := by
      have hsub := Finset.card_le_card (Finset.inter_subset_union (s := A) (t := B))
      omega
    simp [h, hAB]
  · have : max 1 (A ∪ B).card = (A ∪ B).card := by omega
    rw [this]

/-- C3 (amended): the similarity score is exactly
`jaccard + year_term + poster_bonus + colon_variant_bonus` with the spec's
token sets and bonuses, where the year term additionally treats a year
equal to `0` as absent (Python truthiness). -/
theorem C3_amended_score_formula (qt ct : String) (qy cy : Option Int) (hp : Bool) :
    simScore qt ct qy cy hp = amendedScore qt ct qy cy hp := by
  simp only [simScore, amendedScore, specJaccard, specPosterBonus, specColonBonus,
    specTokenSet_eq, yearScore_eq_amended]
  rw [jacc_max_eq]

/-- Unfolding equation for `findYear`. -/
theorem findYear_cons (c : Char) (cs : List Char) :
    findYear (c :: cs) =
      match yearHead (c :: cs) with
      | some y => some ([], y)
      | none => (findYear cs).map (fun p => (c :: p.1, p.2)) := rfl

/-- `re.search` semantics: if the pattern matches at `i` and nowhere
earlier, the scanner returns the prefix of length `i` and that match. -/
theorem findYear_of_first (s : List Char) (i : ℕ) (y : Int)
    (hy : yearPatternAt s i = some y)
    (hall : ∀ j < i, yearPatternAt s j = none) :
    findYear s = some (s.take i, y) := by
  induction s generalizing i with
  | nil => simp [yearPatternAt, yearHead] at hy
  | cons c cs ih =>
    cases i with
    | zero =>
      have hy0 : yearHead (c :: cs) = some y := hy
      rw [findYear_cons, hy0]
      rfl
    | succ i' =>
      have h0 : yearHead (c :: cs) = none := hall 0 (Nat.succ_pos _)
      rw [findYear_cons, h0]
      have hy' : yearPatternAt cs i' = some y := hy
      have hall' : ∀ j < i', yearPatternAt cs j = none := by
        intro j hj
        exact hall (j + 1) (Nat.succ_lt_succ hj)
      rw [ih i' hy' hall']
      rfl

/-- `re.search` semantics: no match anywhere means the scanner fails. -/
theorem findYear_of_none (s : List Char)
    (hall : ∀ j, yearPatternAt s j = none) : findYear s = none := by
  induction s with
  | nil => rfl
  | cons c cs ih =>
    have h0 : yearHead (c :: cs) = none := hall 0
    rw [findYear_cons, h0, ih (fun j => hall (j + 1))]
    rfl

/-- C5 (amended): the movie-like parser takes the first occurrence of the
19xx/20xx digit pattern in the normalized name — standalone token or not —
as the year, with the whitespace-collapsed, stripped text before it as the
title, and returns the whole normalized string with a null year when the
pattern never occurs. -/
theorem C5_amended_first_pattern_occurrence (name : String) :
    (∀ (i : ℕ) (y : Int), yearPatternAt (normalizeMovieLike name) i = some y →
      (∀ j < i, yearPatternAt (normalizeMovieLike name) j = none) →
      parseTitleYearFromFolder name
        = (String.mk (collapseWs (pystrip ((normalizeMovieLike name).take i))), some y))
    ∧ ((∀ j, yearPatternAt (normalizeMovieLike name) j = none) →
      parseTitleYearFromFolder name = (String.mk (normalizeMovieLike name), none)) := by
  constructor
  · intro i y hy hall
    have h := findYear_of_first (normalizeMovieLike name) i y hy hall
    simp [parseTitleYearFromFolder, h]
  · intro hall
    have h := findYear_of_none (normalizeMovieLike name) hall
    simp [parseTitleYearFromFolder, h]

/-- Witness for C5's amended statement at a concrete filename. -/
theorem C5_witness :
    parseTitleYearFromFolder "The Movie 2019 1080p" = ("The Movie", some 2019) :=
  ((C5_amended_first_pattern_occurrence "The Movie 2019 1080p").1 10 2019
    (by decide) (by decide)).trans (by decide)

/-- C5 counterexample: "x2019 1984" contains exactly one standalone year
token, 1984, yet the parser returns year 2019 (the pattern has no word
boundaries, so the embedded "2019" of "x2019" wins) with title "x" rather
than 1984 with title "x2019". -/
theorem C5_counterexample_embedded_year :
    yearTokens (normalizeMovieLike "x2019 1984") = [1984]
    ∧ parseTitleYearFromFolder "x2019 1984" = ("x", some 2019)
    ∧ (("x", some 2019) : String × Option Int) ≠ ("x2019", some 1984) := by
  refine ⟨by decide, by decide, by decide⟩

/-- C10: a player process is spawned exactly when the requested id
resolves through the category's on-disk index to a non-empty path naming
an existing file whose realpath begins, as a string prefix, with the
realpath of that category's configured library root; in every other case
no process is spawned. -/
theorem C10_playback_spawn_guarded (fs : FsView) (st : SiteState) (req : PlayRequest) :
    playbackSpawns fs st req = true ↔
      ∃ fp, requestIndex st req = some fp ∧ fp ≠ "" ∧ fs.isfile fp = true
        ∧ (fs.realpath fp).startsWith (fs.realpath (requestRoot st req)) = true := by
  unfold playbackSpawns launchGuard
  cases h : requestIndex st req with
  | none => simp [h]
  | some fp => simp [h, and_assoc]

/-- `applyMovieSearch` touches only id, poster and overview. -/
theorem applyMovieSearch_preserves (c : MovieRec) (sr : Option MovieCand) :
    (applyMovieSearch c sr).genres = c.genres
    ∧ (applyMovieSearch c sr).runtime = c.runtime
    ∧ (applyMovieSearch c sr).vote = c.vote
    ∧ (applyMovieSearch c sr).certification = c.certification
    ∧ (applyMovieSearch c sr).cast = c.cast
    ∧ (applyMovieSearch c sr).backdrop_url = c.backdrop_url
    ∧ (applyMovieSearch c sr).tagline = c.tagline := by
  cases sr <;> simp [applyMovieSearch]

/-- `applyTvSearch` touches only id, poster, overview and first-air year. -/
theorem applyTvSearch_preserves (c : ShowRec) (sr : Option TvCand) :
    (applyTvSearch c sr).genres = c.genres
    ∧ (applyTvSearch c sr).vote = c.vote
    ∧ (applyTvSearch c sr).cast = c.cast
    ∧ (applyTvSearch c sr).backdrop_url = c.backdrop_url
    ∧ (applyTvSearch c sr).tagline = c.tagline := by
  cases sr <;> simp [applyTvSearch]

/-- C2 (amended): every details-fetch field merge is fill-if-empty — a
populated `genres`, `runtime`, `vote`, `certification`, `cast` or
`backdrop_url` (movies) and `genres`, `vote`, `cast` or `backdrop_url`
(shows) is never overwritten.  (The search merge, by contrast, prefers
fresh provider values for ids, posters and overviews — see the
counterexample — and `tagline` takes a non-empty provider value.) -/
theorem C2_amended_detail_fields_fill_if_empty :
    (∀ (c : MovieRec) (sr : Option MovieCand) (dr : Option MovieDetails),
      (c.genres ≠ [] → (mergeMovieStep c sr dr).genres = c.genres)
      ∧ (c.runtime.isSome = true → (mergeMovieStep c sr dr).runtime = c.runtime)
      ∧ (c.vote.isSome = true → (mergeMovieStep c sr dr).vote = c.vote)
      ∧ (∀ s, s ≠ "" → c.certification = some s →
          (mergeMovieStep c sr dr).certification = some s)
      ∧ (c.cast ≠ [] → (mergeMovieStep c sr dr).cast = c.cast)
      ∧ (c.backdrop_url ≠ "" → (mergeMovieStep c sr dr).backdrop_url = c.backdrop_url))
    ∧ (∀ (c : ShowRec) (sr : Option TvCand) (dr : Option TvDetails),
      (c.genres ≠ [] → (mergeShowStep c sr dr).genres = c.genres)
      ∧ (c.vote.isSome = true → (mergeShowStep c sr dr).vote = c.vote)
      ∧ (c.cast ≠ [] → (mergeShowStep c sr dr).cast = c.cast)
      ∧ (c.backdrop_url ≠ "" → (mergeShowStep c sr dr).backdrop_url = c.backdrop_url)) := by
  constructor
  · intro c sr dr
    obtain ⟨hg, hr, hv, hc, hca, hb, ht⟩ := applyMovieSearch_preserves c sr
    refine ⟨?_, ?_, ?_, ?_, ?_, ?_⟩ <;>
      simp only [mergeMovieStep, movieSearchGate, movieDetailsGate] <;>
      split_ifs <;> cases dr <;>
      simp_all [applyMovieDetails, List.isEmpty_iff]
  · intro c sr dr
    obtain ⟨hg, hv, hca, hb, ht⟩ := applyTvSearch_preserves c sr
    refine ⟨?_, ?_, ?_, ?_⟩ <;>
      simp only [mergeShowStep, tvSearchGate, tvDetailsGate] <;>
      split_ifs <;> cases dr <;>
      simp_all [applyTvDetails, List.isEmpty_iff]

/-- Witness for C2's amended statement at the counterexample record (its
populated `genres` survives the merge that overwrote `overview`). -/
theorem C2_amended_witness :
    c2CacheRec.genres ≠ [] ∧ (mergeMovieStep c2CacheRec (some c2Best) none).genres
      = c2CacheRec.genres :=
  ⟨by decide,
   (C2_amended_detail_fields_fill_if_empty.1 c2CacheRec (some c2Best) none).1 (by decide)⟩

/-- Members of the updated season list keep an episode number from the old
list unless they are the newly appended episode. -/
theorem addOrUpdateEpisode_mem_e (lst : List Episode) (season epnum : ℕ)
    (title file : String) (size : ℕ) (mtime : ℤ) :
    ∀ y ∈ addOrUpdateEpisode lst season epnum title file size mtime,
      y.e = epnum ∨ ∃ x ∈ lst, y.e = x.e := by
  induction lst with
  | nil =>
    intro y hy
    simp only [addOrUpdateEpisode, List.mem_singleton] at hy
    subst hy
    exact Or.inl rfl
  | cons item rest ih =>
    intro y hy
    simp only [addOrUpdateEpisode] at hy
    by_cases h : item.e = epnum
    · rw [if_pos h] at hy
      rcases List.mem_cons.mp hy with h1 | h1
      · subst h1; exact Or.inr ⟨item, List.mem_cons_self _ _, rfl⟩
      · exact Or.inr ⟨y, List.mem_cons_of_mem _ h1, rfl⟩
    · rw [if_neg h] at hy
      rcases List.mem_cons.mp hy with h1 | h1
      · exact Or.inr ⟨item, List.mem_cons_self _ _, by rw [h1]⟩
      · rcases ih y h1 with h2 | ⟨x, hx, h2⟩
        · exact Or.inl h2
        · exact Or.inr ⟨x, List.mem_cons_of_mem _ hx, h2⟩

/-- C7: `_add_or_update_episode` keeps episode numbers unique within a
season; a second file for an existing (season, episode) replaces the
stored path/size/mtime only when strictly larger (the first-seen file
survives a size tie) and fills the title only when the stored one is
empty; an unseen episode number is appended. -/
theorem C7_episode_dedup_larger_file_wins (lst : List Episode) (season epnum : ℕ)
    (title file : String) (size : ℕ) (mtime : ℤ) :
    (lst.Pairwise (fun a b => a.e ≠ b.e) →
      (addOrUpdateEpisode lst season epnum title file size mtime).Pairwise
        (fun a b => a.e ≠ b.e))
    ∧ ((∀ x ∈ lst, x.e ≠ epnum) →
      addOrUpdateEpisode lst season epnum title file size mtime
        = lst ++ [⟨none, season, epnum, title, file, size, mtime⟩])
    ∧ (∀ l1 x l2, lst = l1 ++ x :: l2 → (∀ y ∈ l1, y.e ≠ epnum) → x.e = epnum →
      addOrUpdateEpisode lst season epnum title file size mtime
        = l1 ++ { x with
            file := if size > x.size then file else x.file,
            mtime := if size > x.size then mtime else x.mtime,
            title := if x.title = "" && title ≠ "" then title else x.title,
            size := if size > x.size then size else x.size } :: l2) := by
  refine ⟨?_, ?_, ?_⟩
  · induction lst with
    | nil => intro hp; simp [addOrUpdateEpisode]
    | cons item rest ih =>
      intro hp
      simp only [addOrUpdateEpisode]
      rcases List.pairwise_cons.mp hp with ⟨hhead, htail⟩
      by_cases h : item.e = epnum
      · rw [if_pos h]
        exact List.pairwise_cons.mpr ⟨fun y hy => hhead y hy, htail⟩
      · rw [if_neg h]
        refine List.pairwise_cons.mpr ⟨?_, ih htail⟩
        intro y hy
        rcases addOrUpdateEpisode_mem_e rest season epnum title file size mtime y hy with
          h2 | ⟨x, hx, h2⟩
        · rw [h2]; exact h
        · rw [h2]; exact hhead x hx
  · induction lst with
    | nil => intro _; rfl
    | cons item rest ih =>
      intro hall
      simp only [addOrUpdateEpisode]
      rw [if_neg (hall item (List.mem_cons_self _ _))]
      rw [ih (fun x hx => hall x (List.mem_cons_of_mem _ hx))]
      rfl
  · intro l1 x l2 hdec hl1 hx
    subst hdec
    induction l1 with
    | nil =>
      simp only [List.nil_append, addOrUpdateEpisode]
      rw [if_pos hx]
    | cons z l1' ih =>
      simp only [List.cons_append, addOrUpdateEpisode]
      rw [if_neg (hl1 z (List.mem_cons_self _ _))]
      simp only [List.append_eq]
      rw [ih (fun y hy => hl1 y (List.mem_cons_of_mem _ hy))]

/-- Witness for C7: a 200-byte file replaces the stored 100-byte file for
(S1, E2) and fills the missing title. -/
theorem C7_witness :
    addOrUpdateEpisode [⟨none, 1, 2, "", "old.mkv", 100, 0⟩] 1 2 "Pilot" "new.mkv" 200 7
      = [⟨none, 1, 2, "Pilot", "new.mkv", 200, 7⟩] :=
  ((C7_episode_dedup_larger_file_wins [⟨none, 1, 2, "", "old.mkv", 100, 0⟩] 1 2
      "Pilot" "new.mkv" 200 7).2.2 [] ⟨none, 1, 2, "", "old.mkv", 100, 0⟩ []
      rfl (by simp) rfl).trans (by decide)

/-- `pystrip` is `dropWhile` from the front then from the back. -/
theorem pystrip_eq (cs : List Char) :
    pystrip cs = List.rdropWhile isSpaceChar (List.dropWhile isSpaceChar cs) := rfl

/-- Python `strip` is idempotent. -/
theorem pystrip_idem (cs : List Char) : pystrip (pystrip cs) = pystrip cs := by
  rw [pystrip_eq, pystrip_eq]
  have h1 : List.dropWhile isSpaceChar
      (List.rdropWhile isSpaceChar (List.dropWhile isSpaceChar cs))
      = List.rdropWhile isSpaceChar (List.dropWhile isSpaceChar cs) := by
    rw [List.dropWhile_eq_self_iff]
    intro hl
    have hpre := List.rdropWhile_prefix isSpaceChar (List.dropWhile isSpaceChar cs)
    have hlen : 0 < (List.dropWhile isSpaceChar cs).length :=
      lt_of_lt_of_le hl hpre.length_le
    have hget : (List.rdropWhile isSpaceChar (List.dropWhile isSpaceChar cs)).get ⟨0, hl⟩
        = (List.dropWhile isSpaceChar cs).get ⟨0, hlen⟩ := by
      simpa using hpre.getElem hl
    rw [hget]
    exact List.dropWhile_get_zero_not isSpaceChar cs hlen
  rw [h1, List.rdropWhile_idempotent]

theorem pystripS_idem (s : String) : pystripS (pystripS s) = pystripS s := by
  show String.mk (pystrip (pystrip s.data)) = String.mk (pystrip s.data)
  rw [pystrip_idem]

/-- The conditional strip used for overviews and taglines is a fixpoint
on its own output. -/
theorem stripPrefer_fix (a b v : String)
    (hv : v = pystripS (if a ≠ "" then a else if b ≠ "" then b else "")) :
    pystripS (if a ≠ "" then a else if v ≠ "" then v else "") = v := by
  by_cases ha : a = ""
  · rw [if_neg (by simp [ha])] at hv
    rw [if_neg (by simp [ha])]
    by_cases hvv : v = ""
    · rw [if_neg (by simp [hvv]), hvv]
      rfl
    · rw [if_pos hvv, hv]
      exact pystripS_idem _
  · rw [if_pos ha] at hv
    rw [if_pos ha]
    exact hv.symm

/-- Python `x or y` on optional ids is idempotent in its second argument. -/
theorem pyOrId_idem (a b : Option Nat) : pyOrId a (pyOrId a b) = pyOrId a b := by
  cases a with
  | none => rfl
  | some n =>
    by_cases h : n = 0 <;> simp [pyOrId, h]

theorem base_append_ne_empty (b s : String) (hb : b.length ≠ 0) : b ++ s ≠ "" := by
  intro h
  have h2 := congrArg String.length h
  rw [String.length_append] at h2
  rw [show String.length "" = 0 from rfl] at h2
  omega

theorem poster_url_ne_empty (pp : String) : POSTER_BASE ++ pp ≠ "" :=
  base_append_ne_empty _ _ (by decide)

theorem backdrop_url_ne_empty (bp : String) : BACKDROP_BASE ++ bp ≠ "" :=
  base_append_ne_empty _ _ (by decide)

/-- `extract_cert_from_movie_release_dates` never returns an empty
certification. -/
theorem extractCert_ne_empty (e : List (String × List String)) (t : String)
    (h : extractCert e = some t) : t ≠ "" := by
  unfold extractCert at h
  cases he : e.find? (fun x => x.1 = "US") with
  | none =>
    rw [he] at h
    exact Option.noConfusion h
  | some entry =>
    rw [he] at h
    have h2 : (entry.2.map pystripS).find? (fun c => c ≠ "") = some t := h
    have h3 := List.find?_some h2
    simpa using h3

/-- `applyMovieSearch` is a fixpoint on any record whose id, poster and
overview already carry its output values. -/
theorem applyMovieSearch_fix (c x : MovieRec) (sr : Option MovieCand)
    (hm : x.movie_id = (applyMovieSearch c sr).movie_id)
    (hp : x.poster_url = (applyMovieSearch c sr).poster_url)
    (ho : x.overview = (applyMovieSearch c sr).overview) :
    applyMovieSearch x sr = x := by
  cases sr with
  | none => rfl
  | some best =>
    simp only [applyMovieSearch] at hm hp ho ⊢
    cases x with
    | mk movie_id poster_url overview genres runtime vote certification cast backdrop_url tagline =>
      simp only [MovieRec.mk.injEq, and_true, true_and]
      simp only at hm hp ho
      refine ⟨?_, ?_, ?_⟩
      · rw [hm, pyOrId_idem]
      · by_cases hpp : best.poster_path = "" <;> simp_all
      · exact stripPrefer_fix best.overview c.overview overview ho

/-- `applyMovieDetails` is a fixpoint on any record whose detail fields
already carry its output values. -/
theorem applyMovieDetails_fix (c x : MovieRec) (dr : Option MovieDetails)
    (hg : x.genres = (applyMovieDetails c dr).genres)
    (hr : x.runtime = (applyMovieDetails c dr).runtime)
    (hv : x.vote = (applyMovieDetails c dr).vote)
    (ht : x.tagline = (applyMovieDetails c dr).tagline)
    (hb : x.backdrop_url = (applyMovieDetails c dr).backdrop_url)
    (hc : x.certification = (applyMovieDetails c dr).certification)
    (hca : x.cast = (applyMovieDetails c dr).cast) :
    applyMovieDetails x dr = x := by
  cases dr with
  | none => rfl
  | some det =>
    simp only [applyMovieDetails] at hg hr hv ht hb hc hca ⊢
    cases x with
    | mk movie_id poster_url overview genres runtime vote certification cast backdrop_url tagline =>
      simp only [MovieRec.mk.injEq, and_true, true_and]
      simp only at hg hr hv ht hb hc hca
      refine ⟨?_, ?_, ?_, ?_, ?_, ?_, ?_⟩
      · by_cases h1 : c.genres = [] <;> by_cases h2 : genres = [] <;>
          (try simp_all [List.isEmpty_iff]) <;> (try exact hg)
      · by_cases h1 : c.runtime.isSome <;> by_cases h2 : runtime.isSome <;>
          simp_all [Option.isSome_iff_exists]
      · by_cases h1 : c.vote.isSome <;> by_cases h2 : vote.isSome <;>
          simp_all [Option.isSome_iff_exists]
      · cases hcert : c.certification with
        | some s =>
          simp only [hcert] at hc
          by_cases hs : s = ""
          · rw [if_pos hs] at hc
            cases hex : extractCert det.release_dates with
            | none => simp_all
            | some t => simp_all [extractCert_ne_empty det.release_dates t hex]
          · rw [if_neg hs] at hc
            rw [hc]
            simp [hs]
        | none =>
          simp only [hcert] at hc
          cases hex : extractCert det.release_dates with
          | none => simp_all
          | some t => simp_all [extractCert_ne_empty det.release_dates t hex]
      · by_cases h1 : c.cast = [] <;> by_cases h2 : cast = [] <;>
          (try simp_all [List.isEmpty_iff]) <;> (try exact hca)
      · by_cases hbp : det.backdrop_path = ""
        · simp_all
        · by_cases hcb : c.backdrop_url = ""
          · simp only [hbp, hcb] at hb
            simp_all [backdrop_url_ne_empty det.backdrop_path]
          · simp_all
      · exact stripPrefer_fix det.tagline c.tagline tagline ht

/-- `applyMovieDetails` touches neither id, poster nor overview. -/
theorem applyMovieDetails_preserves (c : MovieRec) (dr : Option MovieDetails) :
    (applyMovieDetails c dr).movie_id = c.movie_id
    ∧ (applyMovieDetails c dr).poster_url = c.poster_url
    ∧ (applyMovieDetails c dr).overview = c.overview := by
  cases dr <;> simp [applyMovieDetails]

/-- The search merge does not change whether details are needed. -/
theorem needDetails_applyMovieSearch (c : MovieRec) (sr : Option MovieCand) :
    needDetails (applyMovieSearch c sr) = needDetails c := by
  obtain ⟨h1, h2, h3, h4, h5, _, _⟩ := applyMovieSearch_preserves c sr
  simp [needDetails, h1, h2, h3, h4, h5]

/-- A record with a well-formed certification keeps one through the
details merge. -/
theorem cert_wf_applyMovieDetails (c : MovieRec) (dr : Option MovieDetails)
    (hwf : c.certification ≠ some "") :
    (applyMovieDetails c dr).certification ≠ some "" := by
  cases dr with
  | none => exact hwf
  | some det =>
    simp only [applyMovieDetails]
    cases hc : c.certification with
    | none =>
      cases hex : extractCert det.release_dates with
      | none => simp [hex]
      | some t =>
        simp only [hex]
        intro h
        cases h
        exact extractCert_ne_empty det.release_dates "" hex rfl
    | some s =>
      have hs : s ≠ "" := by
        intro h
        exact hwf (by rw [hc, h])
      simp only [if_neg hs]
      intro h
      cases h
      exact hs rfl

/-- When no details were needed (and the certification is well-formed),
the details merge leaves `need_details` false. -/
theorem need_false_applyMovieDetails (c : MovieRec) (dr : Option MovieDetails)
    (hwf : c.certification ≠ some "") (h : needDetails c = false) :
    needDetails (applyMovieDetails c dr) = false := by
  cases dr with
  | none => exact h
  | some det =>
    simp only [needDetails, Bool.not_eq_true', Bool.and_eq_true, Bool.not_eq_false'] at h
    obtain ⟨⟨⟨⟨hg, hr⟩, hv⟩, hc⟩, hca⟩ := h
    rcases hcert : c.certification with _ | s
    · rw [hcert] at hc; cases hc
    · have hs : s ≠ "" := fun hs0 => hwf (by rw [hcert, hs0])
      simp [needDetails, applyMovieDetails, hg, hr, hv, hca, hcert, hs,
        Bool.not_eq_true']

/-- One enrichment step is idempotent: re-merging its own output with the
same provider responses changes nothing.  The sole hypothesis is the
well-formedness invariant the pipeline maintains for its own cache files:
a stored certification is never the empty string (`extract_cert` only
returns non-empty strings and the cache starts empty). -/
theorem mergeMovieStep_idem (c : MovieRec) (sr : Option MovieCand) (dr : Option MovieDetails)
    (hwf : c.certification ≠ some "") :
    mergeMovieStep (mergeMovieStep c sr dr) sr dr = mergeMovieStep c sr dr := by
  by_cases hg1 : movieSearchGate c = true
  · have hm : mergeMovieStep c sr dr
        = if movieDetailsGate (needDetails c) (applyMovieSearch c sr) = true
          then applyMovieDetails (applyMovieSearch c sr) dr else applyMovieSearch c sr := by
      simp only [mergeMovieStep, hg1, if_true]
    by_cases hg2 : movieDetailsGate (needDetails c) (applyMovieSearch c sr) = true
    · rw [hm, if_pos hg2]
      have hSm : applyMovieSearch (applyMovieDetails (applyMovieSearch c sr) dr) sr
          = applyMovieDetails (applyMovieSearch c sr) dr := by
        obtain ⟨p1, p2, p3⟩ := applyMovieDetails_preserves (applyMovieSearch c sr) dr
        exact applyMovieSearch_fix c _ sr p1 p2 p3
      have hDm : applyMovieDetails (applyMovieDetails (applyMovieSearch c sr) dr) dr
          = applyMovieDetails (applyMovieSearch c sr) dr :=
        applyMovieDetails_fix (applyMovieSearch c sr) _ dr rfl rfl rfl rfl rfl rfl rfl
      simp only [mergeMovieStep]
      by_cases hg1' : movieSearchGate (applyMovieDetails (applyMovieSearch c sr) dr) = true
      · rw [if_pos hg1', hSm]
        split_ifs with h
        · exact hDm
        · rfl
      · rw [if_neg hg1']
        split_ifs with h
        · exact hDm
        · rfl
    · rw [hm, if_neg hg2]
      have hSm : applyMovieSearch (applyMovieSearch c sr) sr = applyMovieSearch c sr :=
        applyMovieSearch_fix c _ sr rfl rfl rfl
      have hneedm : needDetails (applyMovieSearch c sr) = needDetails c :=
        needDetails_applyMovieSearch c sr
      simp only [mergeMovieStep]
      by_cases hg1' : movieSearchGate (applyMovieSearch c sr) = true
      · rw [if_pos hg1', hSm, hneedm, if_neg hg2]
      · rw [if_neg hg1', hneedm, if_neg hg2]
  · have hg1f : movieSearchGate c = false := by simpa using hg1
    have hm : mergeMovieStep c sr dr
        = if movieDetailsGate (needDetails c) c = true then applyMovieDetails c dr else c := by
      simp only [mergeMovieStep, hg1f, Bool.false_eq_true, if_false]
    have hg1parts := (by
      simpa [movieSearchGate, not_or, Bool.not_eq_true'] using hg1 :
        ((truthyId c.movie_id = true ∧ needDetails c = false)
          ∧ ¬c.poster_url = "") ∧ ¬c.overview = "")
    obtain ⟨⟨⟨hid, hneedc⟩, hpo⟩, hov⟩ := hg1parts
    by_cases hg2 : movieDetailsGate (needDetails c) c = true
    · rw [hm, if_pos hg2]
      obtain ⟨p1, p2, p3⟩ := applyMovieDetails_preserves c dr
      have hg1' : movieSearchGate (applyMovieDetails c dr) = false := by
        simp [movieSearchGate, p1, p2, p3, hid, hpo, hov,
          need_false_applyMovieDetails c dr hwf hneedc]
      have hDm : applyMovieDetails (applyMovieDetails c dr) dr = applyMovieDetails c dr :=
        applyMovieDetails_fix c _ dr rfl rfl rfl rfl rfl rfl rfl
      simp only [mergeMovieStep, hg1', Bool.false_eq_true, if_false]
      split_ifs with h
      · exact hDm
      · rfl
    · rw [hm, if_neg hg2]
      rw [hm, if_neg hg2]

/-- One merge step keeps certifications well-formed. -/
theorem mergeMovieStep_cert_wf (c : MovieRec) (sr : Option MovieCand)
    (dr : Option MovieDetails) (hwf : c.certification ≠ some "") :
    (mergeMovieStep c sr dr).certification ≠ some "" := by
  have hS : (applyMovieSearch c sr).certification = c.certification :=
    (applyMovieSearch_preserves c sr).2.2.2.1
  simp only [mergeMovieStep]
  split_ifs with h1 h2 h3
  · exact cert_wf_applyMovieDetails _ dr (by rw [hS]; exact hwf)
  · rw [hS]; exact hwf
  · exact cert_wf_applyMovieDetails _ dr hwf
  · exact hwf

/-- Keys not named by any work item are untouched by the pass. -/
theorem runEnrichMovies_untouched (items : List EnrichItem) (f : String → MovieRec)
    (k : String) (hk : k ∉ items.map (·.key)) :
    runEnrichMovies items f k = f k := by
  induction items generalizing f with
  | nil => rfl
  | cons it rest ih =>
    simp only [List.map_cons, List.mem_cons, not_or] at hk
    obtain ⟨hk1, hk2⟩ := hk
    simp only [runEnrichMovies]
    rw [ih _ hk2]
    simp [hk1]

/-- The enrichment pass over the movie cache is idempotent when each
entity's cache key is distinct and the incoming cache is well-formed. -/
theorem runEnrichMovies_idem (items : List EnrichItem) (cache : String → MovieRec)
    (hnd : (items.map (·.key)).Nodup)
    (hwf : ∀ k, (cache k).certification ≠ some "") :
    runEnrichMovies items (runEnrichMovies items cache) = runEnrichMovies items cache := by
  induction items generalizing cache with
  | nil => rfl
  | cons it rest ih =>
    simp only [List.map_cons, List.nodup_cons] at hnd
    obtain ⟨hk, hnd'⟩ := hnd
    simp only [runEnrichMovies]
    have hupd : ∀ (f : String → MovieRec),
        (fun k => if k = it.key then mergeMovieStep (f it.key) it.sr it.dr else f k)
          = fun k => if k = it.key then mergeMovieStep (f it.key) it.sr it.dr else f k :=
      fun _ => rfl
    set upd := fun (f : String → MovieRec) (k : String) =>
      if k = it.key then mergeMovieStep (f it.key) it.sr it.dr else f k with hupddef
    have hrw : ∀ f, runEnrichMovies rest (fun k =>
        if k = it.key then mergeMovieStep (f it.key) it.sr it.dr else f k)
        = runEnrichMovies rest (upd f) := fun f => rfl
    rw [hrw, hrw]
    have hgit : runEnrichMovies rest (upd cache) it.key
        = mergeMovieStep (cache it.key) it.sr it.dr := by
      rw [runEnrichMovies_untouched rest (upd cache) it.key hk]
      simp [hupddef]
    have hwf' : ∀ k, ((upd cache) k).certification ≠ some "" := by
      intro k
      by_cases h : k = it.key
      · simp only [hupddef, h, if_pos rfl]
        exact mergeMovieStep_cert_wf _ it.sr it.dr (hwf it.key)
      · simp only [hupddef, if_neg h]
        exact hwf k
    have hupdg : upd (runEnrichMovies rest (upd cache)) = runEnrichMovies rest (upd cache) := by
      funext k
      by_cases h : k = it.key
      · simp only [hupddef, h, if_pos rfl, hgit]
        rw [mergeMovieStep_idem _ it.sr it.dr (hwf it.key), ← hgit]
      · simp only [hupddef, if_neg h]
    rw [hupdg]
    exact ih (upd cache) hnd' hwf'

/-- C8: re-running the movie enrichment pass with the provider returning
exactly what it returned before is idempotent — per merge step and for the
whole cache (distinct `"<title>|<year>"` keys, well-formed stored
certifications). -/
theorem C8_enrichment_rerun_idempotent :
    (∀ (c : MovieRec) (sr : Option MovieCand) (dr : Option MovieDetails),
      c.certification ≠ some "" →
      mergeMovieStep (mergeMovieStep c sr dr) sr dr = mergeMovieStep c sr dr)
    ∧ (∀ (items : List EnrichItem) (cache : String → MovieRec),
      (items.map (·.key)).Nodup → (∀ k, (cache k).certification ≠ some "") →
      runEnrichMovies items (runEnrichMovies items cache) = runEnrichMovies items cache) :=
  ⟨fun c sr dr hwf => mergeMovieStep_idem c sr dr hwf,
   fun items cache hnd hwf => runEnrichMovies_idem items cache hnd hwf⟩

/-- Witness for C8 on a one-item library against an empty cache. -/
theorem C8_witness :
    runEnrichMovies [⟨"The Movie|2019", none, none⟩]
        (runEnrichMovies [⟨"The Movie|2019", none, none⟩] (fun _ => freshMovieRec))
      = runEnrichMovies [⟨"The Movie|2019", none, none⟩] (fun _ => freshMovieRec) :=
  C8_enrichment_rerun_idempotent.2 [⟨"The Movie|2019", none, none⟩] (fun _ => freshMovieRec)
    (by simp) (fun _ => by simp [freshMovieRec])

/-- Dropping over a fully-satisfying prefix skips it. -/
theorem dropWhile_append_of_all (p : Char → Bool) (l1 l2 : List Char)
    (h : ∀ c ∈ l1, p c = true) :
    (l1 ++ l2).dropWhile p = l2.dropWhile p := by
  induction l1 with
  | nil => rfl
  | cons c cs ih =>
    rw [List.cons_append, List.dropWhile_cons_of_pos (h c (List.mem_cons_self _ _))]
    exact ih (fun x hx => h x (List.mem_cons_of_mem _ hx))

theorem space_not_digit (c : Char) (h : isSpaceChar c = true) : c.isDigit = false := by
  simp only [isSpaceChar, Bool.or_eq_true, decide_eq_true_eq] at h
  rcases h with ((((h | h) | h) | h) | h) | h <;> subst h <;> decide

theorem sepCl_not_digit (c : Char) (h : isSepCl c = true) : c.isDigit = false := by
  simp only [isSepCl, Bool.or_eq_true, decide_eq_true_eq] at h
  rcases h with ((h | h) | h) | h <;> subst h <;> decide

theorem digit_not_space (c : Char) (h : c.isDigit = true) : isSpaceChar c = false := by
  cases hs : isSpaceChar c with
  | false => rfl
  | true => rw [space_not_digit c hs] at h; cases h

theorem digit_not_sepCl (c : Char) (h : c.isDigit = true) : isSepCl c = false := by
  cases hs : isSepCl c with
  | false => rfl
  | true => rw [sepCl_not_digit c hs] at h; cases h

theorem digit_word (c : Char) (h : c.isDigit = true) : isWordChar c = true := by
  simp [isWordChar, h]

/-- Skipping `\s*` then `[.\-_ ]*` over a pure separator run stops exactly
at the first character outside both classes. -/
theorem drop_two_stage (seps : List Char) (e : Char) (Y : List Char)
    (hseps : ∀ c ∈ seps, isSepCl c = true)
    (he1 : isSpaceChar e = false) (he2 : isSepCl e = false) :
    ((seps ++ e :: Y).dropWhile isSpaceChar).dropWhile isSepCl = e :: Y := by
  induction seps with
  | nil =>
    rw [List.nil_append, List.dropWhile_cons_of_neg (by simp [he1]),
      List.dropWhile_cons_of_neg (by simp [he2])]
  | cons s seps' ih =>
    have hs : isSepCl s = true := hseps s (List.mem_cons_self _ _)
    have hseps' : ∀ c ∈ seps', isSepCl c = true :=
      fun c hc => hseps c (List.mem_cons_of_mem _ hc)
    by_cases hsp : isSpaceChar s = true
    · rw [List.cons_append, List.dropWhile_cons_of_pos hsp]
      exact ih hseps'
    · rw [List.cons_append, List.dropWhile_cons_of_neg (by simp_all),
        List.dropWhile_cons_of_pos hs, dropWhile_append_of_all isSepCl seps' _ hseps',
        List.dropWhile_cons_of_neg (by simp [he2])]

/-- `matchFrom` on a decomposed `SxxEyy` token reads back the season and
episode values and the suffix after the match. -/
theorem matchFrom_structured (sChar eChar : Char)
    (hS : sChar = 'S' ∨ sChar = 's') (hE : eChar = 'E' ∨ eChar = 'e')
    (sp1 sds seps sp2 eds tail : List Char)
    (hsp1 : ∀ c ∈ sp1, isSpaceChar c = true)
    (hsds : (∃ d, sds = [d] ∧ d.isDigit = true)
      ∨ ∃ d e, sds = [d, e] ∧ d.isDigit = true ∧ e.isDigit = true)
    (hseps : ∀ c ∈ seps, isSepCl c = true)
    (hsp2 : ∀ c ∈ sp2, isSpaceChar c = true)
    (heds : (∃ d, eds = [d] ∧ d.isDigit = true)
      ∨ ∃ d e, eds = [d, e] ∧ d.isDigit = true ∧ e.isDigit = true)
    (htail : bOk tail = true) :
    matchFrom (sChar :: (sp1 ++ sds ++ seps ++ eChar :: (sp2 ++ eds ++ tail)))
      = some (digitsVal sds, digitsVal eds, tail) := by
  have hEs : isSpaceChar eChar = false := by rcases hE with h | h <;> subst h <;> decide
  have hEc : isSepCl eChar = false := by rcases hE with h | h <;> subst h <;> decide
  have hEd : (eChar = 'E' || eChar = 'e') = true := by
    rcases hE with h | h <;> subst h <;> decide
  have hstep2 : (sp1 ++ sds ++ seps ++ eChar :: (sp2 ++ eds ++ tail)).dropWhile isSpaceChar
      = sds ++ (seps ++ eChar :: (sp2 ++ eds ++ tail)) := by
    have hsdhead : ∃ d rest, sds = d :: rest ∧ d.isDigit = true := by
      rcases hsds with ⟨d, hd, hdig⟩ | ⟨d, e, hde, hdig, _⟩
      · exact ⟨d, [], hd, hdig⟩
      · exact ⟨d, [e], hde, hdig⟩
    obtain ⟨d, rest, hsd, hdig⟩ := hsdhead
    subst hsd
    simp only [List.append_assoc, List.cons_append]
    rw [dropWhile_append_of_all isSpaceChar sp1 _ hsp1,
      List.dropWhile_cons_of_neg (by simp [digit_not_space d hdig])]
  have hseason : seasonDigits (sds ++ (seps ++ eChar :: (sp2 ++ eds ++ tail)))
      = some (digitsVal sds, seps ++ eChar :: (sp2 ++ eds ++ tail)) := by
    rcases hsds with ⟨d, hd, hdig⟩ | ⟨d, e, hde, hdig, hedig⟩
    · subst hd
      cases hsep : seps with
      | nil =>
        simp only [List.singleton_append, List.nil_append, seasonDigits, hdig, if_true]
        have : eChar.isDigit = false := by rcases hE with h | h <;> subst h <;> decide
        simp [this, digitsVal, digitVal]
      | cons s0 seps' =>
        have hs0 : isSepCl s0 = true := by
          rw [hsep] at hseps
          exact hseps s0 (List.mem_cons_self _ _)
        simp only [List.singleton_append, List.cons_append, seasonDigits, hdig,
          sepCl_not_digit s0 hs0]
        simp [hdig, sepCl_not_digit s0 hs0, digitsVal, digitVal]
    · subst hde
      simp only [List.cons_append, List.singleton_append, seasonDigits, hdig, hedig]
      simp [digitsVal, digitVal]
  have hstep4 : ((seps ++ eChar :: (sp2 ++ eds ++ tail)).dropWhile isSpaceChar).dropWhile isSepCl
      = eChar :: (sp2 ++ eds ++ tail) :=
    drop_two_stage seps eChar _ hseps hEs hEc
  have hstep6 : (sp2 ++ eds ++ tail).dropWhile isSpaceChar = eds ++ tail := by
    have hedhead : ∃ d rest, eds = d :: rest ∧ d.isDigit = true := by
      rcases heds with ⟨d, hd, hdig⟩ | ⟨d, e, hde, hdig, _⟩
      · exact ⟨d, [], hd, hdig⟩
      · exact ⟨d, [e], hde, hdig⟩
    obtain ⟨d, rest, hed, hdig⟩ := hedhead
    subst hed
    simp only [List.append_assoc, List.cons_append]
    rw [dropWhile_append_of_all isSpaceChar sp2 _ hsp2,
      List.dropWhile_cons_of_neg (by simp [digit_not_space d hdig])]
  have hepd : epDigits (eds ++ tail) = some (digitsVal eds, tail) := by
    rcases heds with ⟨d, hd, hdig⟩ | ⟨d, e, hde, hdig, hedig⟩
    · subst hd
      cases htl : tail with
      | nil => simp [epDigits, hdig, digitsVal, digitVal]
      | cons t0 ts =>
        have ht0 : isWordChar t0 = false := by
          rw [htl] at htail
          simpa [bOk] using htail
        have ht0d : t0.isDigit = false := by
          cases hd0 : t0.isDigit with
          | false => rfl
          | true => rw [digit_word t0 hd0] at ht0; cases ht0
        simp only [List.singleton_append, epDigits, hdig, ht0d]
        simp [bOk, ht0, digitsVal, digitVal]
    · subst hde
      simp only [List.cons_append, List.singleton_append, epDigits, hdig, hedig, htail]
      simp [htail, digitsVal, digitVal]
  have hSd : (sChar = 'S' || sChar = 's') = true := by
    rcases hS with h | h <;> subst h <;> decide
  simp only [matchFrom, hSd, if_true, hstep2, hseason]
  rw [hstep4]
  simp only [hEd, if_true, hstep6, hepd]

/-- Scanning past a prefix updates the previous-character context to its
last character. -/
theorem prevAfter_cons (prev : Option Char) (c : Char) (pre : List Char) :
    prevAfter prev (c :: pre) = prevAfter (some c) pre := by
  cases pre with
  | nil => rfl
  | cons d pre' =>
    simp only [prevAfter, List.getLast?_cons_cons]
    cases hg : (d :: pre').getLast? with
    | some x => rfl
    | none => exact absurd hg (by simp)

/-- Unfolding equation for `findShowMatch`. -/
theorem findShowMatch_cons (prev : Option Char) (c : Char) (cs : List Char) :
    findShowMatch prev (c :: cs) =
      match (if boundaryOk prev then matchFrom (c :: cs) else none) with
      | some (se, ep, rest) => some ([], se, ep, rest)
      | none => (findShowMatch (some c) cs).map
          (fun r => (c :: r.1, r.2.1, r.2.2.1, r.2.2.2)) := rfl

/-- `re.search` semantics for the show regex: with no earlier match in
`pre` and a boundary-respecting match at the start of `rest`, the scanner
returns `pre` as the text before the match. -/
theorem findShowMatch_append (pre : List Char) (rest : List Char) (prev : Option Char)
    (se ep : ℕ) (after : List Char)
    (hnm : noShowMatchBefore prev pre rest = true)
    (hb : boundaryOk (prevAfter prev pre) = true)
    (hm : matchFrom rest = some (se, ep, after)) :
    findShowMatch prev (pre ++ rest) = some (pre, se, ep, after) := by
  induction pre generalizing prev with
  | nil =>
    cases rest with
    | nil => cases hm
    | cons c cs =>
      have hb0 : boundaryOk prev = true := hb
      rw [List.nil_append, findShowMatch_cons, if_pos hb0, hm]
  | cons c pre' ih =>
    simp only [noShowMatchBefore, Bool.and_eq_true, Bool.not_eq_true'] at hnm
    obtain ⟨h1, h2⟩ := hnm
    rw [List.cons_append, findShowMatch_cons]
    have hnone : (if boundaryOk prev then matchFrom (c :: (pre' ++ rest)) else none) = none := by
      cases hbp : boundaryOk prev with
      | false => rfl
      | true =>
        rw [if_pos rfl]
        rw [hbp] at h1
        simp only [Bool.true_and, Bool.not_eq_true] at h1
        cases hmm : matchFrom (c :: (pre' ++ rest)) with
        | none => rfl
        | some v => rw [hmm] at h1; simp at h1
    rw [hnone]
    rw [prevAfter_cons] at hb
    rw [ih (some c) h2 hb]
    rfl

/-- C6: for every filename whose cleaned form contains a case-insensitive
`S<1-2 digits>E<1-2 digits>` token (arbitrary space/`[.\-_ ]` separators,
word boundaries on both sides, first such occurrence), the show parser
recovers the season and episode integers regardless of zero-padding and
takes the stripped text before the token as the show name; the episode key
is `"<sid>_S<season:2d>E<episode:2d>"`. -/
theorem C6_show_token_parsed (text : String) (pre sp1 sds seps sp2 eds tail : List Char)
    (sChar eChar : Char) (se ep : ℕ)
    (hdec : cleanName text
      = pre ++ sChar :: (sp1 ++ sds ++ seps ++ eChar :: (sp2 ++ eds ++ tail)))
    (hS : sChar = 'S' ∨ sChar = 's') (hE : eChar = 'E' ∨ eChar = 'e')
    (hsp1 : ∀ c ∈ sp1, isSpaceChar c = true)
    (hsds : (∃ d, sds = [d] ∧ d.isDigit = true)
      ∨ ∃ d e, sds = [d, e] ∧ d.isDigit = true ∧ e.isDigit = true)
    (hseps : ∀ c ∈ seps, isSepCl c = true)
    (hsp2 : ∀ c ∈ sp2, isSpaceChar c = true)
    (heds : (∃ d, eds = [d] ∧ d.isDigit = true)
      ∨ ∃ d e, eds = [d, e] ∧ d.isDigit = true ∧ e.isDigit = true)
    (htail : bOk tail = true)
    (hse : digitsVal sds = se) (hep : digitsVal eds = ep)
    (hb : boundaryOk (prevAfter none pre) = true)
    (hnm : noShowMatchBefore none pre
      (sChar :: (sp1 ++ sds ++ seps ++ eChar :: (sp2 ++ eds ++ tail))) = true) :
    ∃ r, parseShowFromString text = some r
      ∧ r.show_name = String.mk (pystrip pre) ∧ r.season = se ∧ r.episode = ep
      ∧ ∀ sid, epKey sid r.season r.episode = sid ++ "_S" ++ pad2 se ++ "E" ++ pad2 ep := by
  have hm : matchFrom (sChar :: (sp1 ++ sds ++ seps ++ eChar :: (sp2 ++ eds ++ tail)))
      = some (se, ep, tail) := by
    rw [matchFrom_structured sChar eChar hS hE sp1 sds seps sp2 eds tail
      hsp1 hsds hseps hsp2 heds htail, hse, hep]
  have hfind := findShowMatch_append pre _ none se ep tail hnm hb hm
  refine ⟨⟨String.mk (pystrip pre), se, ep,
      String.mk (pystrip (joinWords ((wordsOf (pystrip tail)).takeWhile
        (fun t => !qualityTok t))))⟩, ?_, rfl, rfl, rfl, fun sid => rfl⟩
  simp only [parseShowFromString, hdec, hfind]

/-- Witness for C6: the spec's concrete scenario
"Show.Name.S01E02.WEBRip.mp4". -/
theorem C6_witness :
    ∃ r, parseShowFromString "Show.Name.S01E02.WEBRip.mp4" = some r
      ∧ r.show_name = "Show Name" ∧ r.season = 1 ∧ r.episode = 2
      ∧ epKey "tv1" r.season r.episode = "tv1_S01E02" := by
  obtain ⟨r, h1, h2, h3, h4, h5⟩ := C6_show_token_parsed "Show.Name.S01E02.WEBRip.mp4"
    "Show Name ".data [] ['0', '1'] [] [] ['0', '2'] " WEBRip mp4".data 'S' 'E' 1 2
    (by decide) (Or.inl rfl) (Or.inl rfl)
    (by intro c hc; cases hc) (Or.inr ⟨'0', '1', rfl, by decide, by decide⟩)
    (by intro c hc; cases hc) (by intro c hc; cases hc)
    (Or.inr ⟨'0', '2', rfl, by decide, by decide⟩)
    (by decide) (by decide) (by decide) (by decide) (by decide)
  exact ⟨r, h1, h2.trans (by decide), h3, h4, (h5 "tv1").trans (by decide)⟩

end Cinema
